import Mathlib

/-!
Formal model of the multi-elevator dispatch simulation core
(the "hybrid aggressive" scheduler variant, which the specification adopts
as canonical), shallowly embedded from the TypeScript sources:

  * `Elevator` class  (src/server/models/Elevator.ts)
  * `Request` class   (src/server/models/Request.ts)
  * `Scheduler` class (src/server/services/Scheduler.ts)
  * `SimulationEngine` class (src/server/services/SimulationEngine.ts)

Conventions of the embedding:
  * JavaScript numbers holding floor indices, ids and passenger counts are
    modelled as `ℤ`; counters as `ℕ`; clock values, speeds and statistics
    (which are genuinely fractional) as `ℝ`.
  * `Math.random()` draws are environment inputs (rationals in `[0,1)` supplied
    from outside); `Date.now()` and wall-clock-hour reads are likewise
    environment inputs.
  * In-place mutation of objects is modelled by explicit state passing;
    arrays of object references become lists, and mutation of the i-th
    element becomes `List.set`.
-/

/-- Direction of travel of an elevator: "up" | "down" | "idle". -/
inductive Direction where
  | up
  | down
  | idle
deriving DecidableEq, Repr

/-- State of one elevator car, mirroring the fields of the `ElevatorClass`
TypeScript class (id, currentFloor, direction, passengerCount, maxCapacity,
doorsOpen, targetFloor, isMoving, assignedRequests). -/
structure Elevator where
  id : ℤ
  currentFloor : ℤ
  direction : Direction
  passengerCount : ℤ
  maxCapacity : ℤ
  doorsOpen : Bool
  targetFloor : Option ℤ
  isMoving : Bool
  assignedRequests : List String
deriving DecidableEq, Repr

namespace Elevator

/-- The `ElevatorClass` constructor: direction idle, no passengers,
doors closed, no target, not moving, no assigned requests. -/
def mk0 (id maxCapacity startingFloor : ℤ) : Elevator :=
  { id := id
    currentFloor := startingFloor
    direction := Direction.idle
    passengerCount := 0
    maxCapacity := maxCapacity
    doorsOpen := false
    targetFloor := none
    isMoving := false
    assignedRequests := [] }

/-- JavaScript `this.targetFloor || dflt`: `undefined` and `0` are falsy. -/
def targetOr (e : Elevator) (dflt : ℤ) : ℤ :=
  match e.targetFloor with
  | none => dflt
  | some t => if t = 0 then dflt else t

/-- `move()`: moves up to 10 floors in the current direction, clamped by the
target (`targetFloor || 50` going up, `targetFloor || 1` going down) and by
the hard-coded floor bounds 50 (above) and 1 (below); always sets
`isMoving = true`. -/
def move (e : Elevator) : Elevator :=
  let e2 :=
    match e.direction with
    | Direction.up =>
        let target := e.targetOr 50
        let newFloor := min (e.currentFloor + 10) target
        { e with currentFloor := min newFloor 50 }
    | Direction.down =>
        let target := e.targetOr 1
        let newFloor := max (e.currentFloor - 10) target
        { e with currentFloor := max newFloor 1 }
    | Direction.idle => e
  { e2 with isMoving := true }

/-- `stop()`: direction idle, not moving, target cleared. -/
def stop (e : Elevator) : Elevator :=
  { e with direction := Direction.idle, isMoving := false, targetFloor := none }

/-- `setTarget(targetFloor)`: records the target and derives the direction
from comparison with the current floor. -/
def setTarget (e : Elevator) (t : ℤ) : Elevator :=
  { e with
      targetFloor := some t
      direction :=
        if e.currentFloor < t then Direction.up
        else if t < e.currentFloor then Direction.down
        else Direction.idle }

/-- `hasReachedTarget()`: a target exists and equals the current floor. -/
def hasReachedTarget (e : Elevator) : Bool :=
  match e.targetFloor with
  | some t => e.currentFloor == t
  | none => false

/-- `openDoors()`. -/
def openDoors (e : Elevator) : Elevator := { e with doorsOpen := true }

/-- `closeDoors()`. -/
def closeDoors (e : Elevator) : Elevator := { e with doorsOpen := false }

/-- `addPassengers(count)`: applies the update and returns true when
`passengerCount + count <= maxCapacity`, otherwise returns false without
side effect. -/
def addPassengers (e : Elevator) (count : ℤ) : Bool × Elevator :=
  if e.passengerCount + count ≤ e.maxCapacity then
    (true, { e with passengerCount := e.passengerCount + count })
  else
    (false, e)

/-- `removePassengers(count)`: applies the update and returns true when
`passengerCount >= count`, otherwise returns false without side effect. -/
def removePassengers (e : Elevator) (count : ℤ) : Bool × Elevator :=
  if count ≤ e.passengerCount then
    (true, { e with passengerCount := e.passengerCount - count })
  else
    (false, e)

/-- `hasCapacity()`: `passengerCount < maxCapacity`. -/
def hasCapacity (e : Elevator) : Bool :=
  e.passengerCount < e.maxCapacity

/-- `getAvailableCapacity()`. -/
def getAvailableCapacity (e : Elevator) : ℤ :=
  e.maxCapacity - e.passengerCount

/-- `isIdle()`: idle direction, not moving, and no target. -/
def isIdle (e : Elevator) : Bool :=
  e.direction == Direction.idle && !e.isMoving && e.targetFloor == none

/-- `getDistanceToFloor(floor)`: absolute floor distance. -/
def getDistanceToFloor (e : Elevator) (floor : ℤ) : ℤ :=
  |e.currentFloor - floor|

end Elevator

/-- C6 counterexample: in a 60-floor building, an elevator at floor 45
heading up to floor 60 satisfies every hypothesis of the claim (both
floors lie in `[1, totalFloors]`, direction as `setTarget` derives it),
yet `move()` advances only to the hard-coded ceiling 50 instead of
stepping by 10 to floor 55; and once at floor 50 with the same in-range
target, `move()` does not advance at all — no fixed positive step toward
the target exists, and the target is never reached. -/
theorem move_hardcoded_clamp_counterexample :
    let e : Elevator :=
      { id := 1, currentFloor := 45, direction := Direction.up,
        passengerCount := 0, maxCapacity := 15, doorsOpen := false,
        targetFloor := some 60, isMoving := false, assignedRequests := [] }
    let e2 : Elevator := { e with currentFloor := 50 }
    (1 ≤ e.currentFloor ∧ e.currentFloor ≤ 60) ∧
    (1 ≤ (60 : ℤ) ∧ (60 : ℤ) ≤ 60) ∧
    e.direction = (if e.currentFloor < 60 then Direction.up
        else if (60 : ℤ) < e.currentFloor then Direction.down else Direction.idle) ∧
    (e.move).currentFloor = 50 ∧
    ¬ (e.move).currentFloor = e.currentFloor + 10 ∧
    (1 ≤ e2.currentFloor ∧ e2.currentFloor ≤ 60) ∧
    (e2.move).currentFloor = e2.currentFloor ∧
    ¬ e2.currentFloor = 60 := by
  decide

/-- C6 (amended): provided the building does not exceed the hard-coded
50-floor clamp (`totalFloors ≤ 50`), an elevator whose current floor and
target floor lie in `[1, totalFloors]` and whose direction is the one
`setTarget` derives moves by a fixed step of 10 toward the target, reaching
it exactly when within 10 floors, never overshoots the target, and stays
inside `[1, totalFloors]`. -/
theorem move_toward_target (e : Elevator) (F t : ℤ)
    (ht : e.targetFloor = some t)
    (hcf1 : 1 ≤ e.currentFloor) (hcf2 : e.currentFloor ≤ F)
    (ht1 : 1 ≤ t) (ht2 : t ≤ F) (hF : F ≤ 50)
    (hdir : e.direction =
      (if e.currentFloor < t then Direction.up
       else if t < e.currentFloor then Direction.down else Direction.idle)) :
    (e.move).currentFloor =
      (if |t - e.currentFloor| ≤ 10 then t
       else if e.currentFloor < t then e.currentFloor + 10
       else e.currentFloor - 10) ∧
    min e.currentFloor t ≤ (e.move).currentFloor ∧
    (e.move).currentFloor ≤ max e.currentFloor t ∧
    1 ≤ (e.move).currentFloor ∧ (e.move).currentFloor ≤ F := by
  have htz : ¬ t = 0 := by omega
  rcases lt_trichotomy e.currentFloor t with hlt | heq | hgt
  · have hd : e.direction = Direction.up := by
      rw [hdir, if_pos hlt]
    simp only [Elevator.move, hd, Elevator.targetOr, ht, if_neg htz]
    constructor
    · rcases le_or_lt (t - e.currentFloor) 10 with hnear | hfar
      · rw [if_pos (by rw [abs_of_pos (by omega)]; omega)]
        omega
      · rw [if_neg (by rw [abs_of_pos (by omega)]; omega), if_pos hlt]
        omega
    · omega
  · have hd : e.direction = Direction.idle := by
      rw [hdir, if_neg (by omega), if_neg (by omega)]
    simp only [Elevator.move, hd]
    rw [if_pos (by rw [heq]; simp)]
    omega
  · have hd : e.direction = Direction.down := by
      rw [hdir, if_neg (by omega), if_pos hgt]
    simp only [Elevator.move, hd, Elevator.targetOr, ht, if_neg htz]
    constructor
    · rcases le_or_lt (e.currentFloor - t) 10 with hnear | hfar
      · rw [if_pos (by rw [abs_of_neg (by omega)]; omega)]
        omega
      · rw [if_neg (by rw [abs_of_neg (by omega)]; omega), if_neg (by omega)]
        omega
    · omega

/-- C6 witness: the amended move theorem applied to a concrete elevator at
floor 3 targeting floor 7 in a 10-floor building. -/
theorem move_toward_target_witness :
    ((Elevator.mk0 1 15 3).setTarget 7).move.currentFloor =
      (if |(7 : ℤ) - ((Elevator.mk0 1 15 3).setTarget 7).currentFloor| ≤ 10 then 7
       else if ((Elevator.mk0 1 15 3).setTarget 7).currentFloor < 7 then
         ((Elevator.mk0 1 15 3).setTarget 7).currentFloor + 10
       else ((Elevator.mk0 1 15 3).setTarget 7).currentFloor - 10) ∧
    min ((Elevator.mk0 1 15 3).setTarget 7).currentFloor 7 ≤
      ((Elevator.mk0 1 15 3).setTarget 7).move.currentFloor ∧
    ((Elevator.mk0 1 15 3).setTarget 7).move.currentFloor ≤
      max ((Elevator.mk0 1 15 3).setTarget 7).currentFloor 7 ∧
    1 ≤ ((Elevator.mk0 1 15 3).setTarget 7).move.currentFloor ∧
    ((Elevator.mk0 1 15 3).setTarget 7).move.currentFloor ≤ 10 :=
  move_toward_target ((Elevator.mk0 1 15 3).setTarget 7) 10 7
    (by decide) (by decide) (by decide) (by decide) (by decide) (by decide) (by decide)

/-- C7 counterexample: with a negative count the capacity contract fails on
both mutators. Adding `-1` to an empty 15-capacity elevator would drive
`passengerCount` below zero, yet `addPassengers` applies it and returns
true; removing `-1` from a full elevator would drive the count above
`maxCapacity`, yet `removePassengers` applies it and returns true. -/
theorem passenger_negative_count_counterexample :
    let e := Elevator.mk0 1 15 1
    let eFull := { e with passengerCount := 15 }
    (e.passengerCount + (-1) < 0 ∧
      (e.addPassengers (-1)).1 = true ∧
      (e.addPassengers (-1)).2.passengerCount = -1) ∧
    (eFull.maxCapacity < eFull.passengerCount - (-1) ∧
      (eFull.removePassengers (-1)).1 = true ∧
      (eFull.removePassengers (-1)).2.passengerCount = 16) := by
  decide

/-- C7 (amended): for a nonnegative count and an elevator satisfying the
capacity invariant, `addPassengers`/`removePassengers` return false and
leave the state unchanged exactly when applying the update would violate
`0 ≤ passengerCount ≤ maxCapacity`, and otherwise apply the update and
return true. (The code checks only the upper bound in `addPassengers` and
only the lower bound in `removePassengers`, so negative counts escape the
contract — see the counterexample.) -/
theorem passenger_count_contract (e : Elevator) (count : ℤ)
    (hc : 0 ≤ count) (h0 : 0 ≤ e.passengerCount) (hm : e.passengerCount ≤ e.maxCapacity) :
    (((e.addPassengers count).1 = false ∧ (e.addPassengers count).2 = e) ↔
      ¬ (0 ≤ e.passengerCount + count ∧ e.passengerCount + count ≤ e.maxCapacity)) ∧
    ((0 ≤ e.passengerCount + count ∧ e.passengerCount + count ≤ e.maxCapacity) →
      (e.addPassengers count).1 = true ∧
      (e.addPassengers count).2.passengerCount = e.passengerCount + count) ∧
    (((e.removePassengers count).1 = false ∧ (e.removePassengers count).2 = e) ↔
      ¬ (0 ≤ e.passengerCount - count ∧ e.passengerCount - count ≤ e.maxCapacity)) ∧
    ((0 ≤ e.passengerCount - count ∧ e.passengerCount - count ≤ e.maxCapacity) →
      (e.removePassengers count).1 = true ∧
      (e.removePassengers count).2.passengerCount = e.passengerCount - count) := by
  unfold Elevator.addPassengers Elevator.removePassengers
  refine ⟨?_, ?_, ?_, ?_⟩
  · rcases le_or_lt (e.passengerCount + count) e.maxCapacity with h | h
    · rw [if_pos h]
      simp only [Bool.true_eq_false, false_and, false_iff, not_not]
      omega
    · rw [if_neg (by omega)]
      simp only [and_self, true_iff]
      omega
  · intro h
    rw [if_pos h.2]
    exact ⟨rfl, rfl⟩
  · rcases le_or_lt count e.passengerCount with h | h
    · rw [if_pos h]
      simp only [Bool.true_eq_false, false_and, false_iff, not_not]
      omega
    · rw [if_neg (by omega)]
      simp only [and_self, true_iff]
      omega
  · intro h
    rw [if_pos (by omega)]
    exact ⟨rfl, rfl⟩

/-- C7 witness: the contract theorem applied to an empty 15-capacity
elevator adding and removing 1 passenger. -/
theorem passenger_count_contract_witness :
    ((((Elevator.mk0 1 15 1).addPassengers 1).1 = false ∧
        ((Elevator.mk0 1 15 1).addPassengers 1).2 = Elevator.mk0 1 15 1) ↔
      ¬ (0 ≤ (Elevator.mk0 1 15 1).passengerCount + 1 ∧
          (Elevator.mk0 1 15 1).passengerCount + 1 ≤ (Elevator.mk0 1 15 1).maxCapacity)) ∧
    ((0 ≤ (Elevator.mk0 1 15 1).passengerCount + 1 ∧
        (Elevator.mk0 1 15 1).passengerCount + 1 ≤ (Elevator.mk0 1 15 1).maxCapacity) →
      ((Elevator.mk0 1 15 1).addPassengers 1).1 = true ∧
      ((Elevator.mk0 1 15 1).addPassengers 1).2.passengerCount =
        (Elevator.mk0 1 15 1).passengerCount + 1) ∧
    ((((Elevator.mk0 1 15 1).removePassengers 1).1 = false ∧
        ((Elevator.mk0 1 15 1).removePassengers 1).2 = Elevator.mk0 1 15 1) ↔
      ¬ (0 ≤ (Elevator.mk0 1 15 1).passengerCount - 1 ∧
          (Elevator.mk0 1 15 1).passengerCount - 1 ≤ (Elevator.mk0 1 15 1).maxCapacity)) ∧
    ((0 ≤ (Elevator.mk0 1 15 1).passengerCount - 1 ∧
        (Elevator.mk0 1 15 1).passengerCount - 1 ≤ (Elevator.mk0 1 15 1).maxCapacity) →
      ((Elevator.mk0 1 15 1).removePassengers 1).1 = true ∧
      ((Elevator.mk0 1 15 1).removePassengers 1).2.passengerCount =
        (Elevator.mk0 1 15 1).passengerCount - 1) :=
  passenger_count_contract (Elevator.mk0 1 15 1) 1 (by decide) (by decide) (by decide)

/-- State of one transport request, mirroring the fields of the
`RequestClass` TypeScript class. The unique id string generated in the
constructor is an environment input here. -/
structure Request where
  id : String
  fromFloor : ℤ
  toFloor : ℤ
  timestamp : ℝ
  isAssigned : Bool
  assignedElevatorId : Option ℤ
  isManual : Bool
  isPickupComplete : Bool
  isDeliveryComplete : Bool
  pickupTime : Option ℝ
  deliveryTime : Option ℝ

namespace Request

/-- The `RequestClass` constructor: floors and timestamp as given, all
lifecycle flags false, no assigned elevator, no pickup/delivery times. -/
def mk0 (id : String) (fromFloor toFloor : ℤ) (timestamp : ℝ) : Request :=
  { id := id
    fromFloor := fromFloor
    toFloor := toFloor
    timestamp := timestamp
    isAssigned := false
    assignedElevatorId := none
    isManual := false
    isPickupComplete := false
    isDeliveryComplete := false
    pickupTime := none
    deliveryTime := none }

/-- `getWaitTime(currentTime)`: `currentTime - timestamp`. -/
def getWaitTime (r : Request) (currentTime : ℝ) : ℝ :=
  currentTime - r.timestamp

/-- `isGoingUp()`: `toFloor > fromFloor`. -/
def isGoingUp (r : Request) : Bool :=
  r.fromFloor < r.toFloor

/-- `isGoingDown()`: `toFloor < fromFloor`. -/
def isGoingDown (r : Request) : Bool :=
  r.toFloor < r.fromFloor

/-- Priority as a function of the wait time and travel direction, mirroring
the body of `getPriority`: base 1, plus `(waitTime - 3) ^ 1.5` once the wait
exceeds 3, plus step boosts 400 (wait > 10) and 1000 (wait > 20), plus an
unconditional direction bonus of 50 for upward and 30 for downward requests. -/
noncomputable def priorityOfWait (waitTime : ℝ) (goingUp : Bool) : ℝ :=
  1 + (if 3 < waitTime then (waitTime - 3) ^ (1.5 : ℝ) else 0)
    + (if 10 < waitTime then 400 else 0)
    + (if 20 < waitTime then 1000 else 0)
    + (if goingUp then 50 else 30)

/-- `getPriority(currentTime)`. -/
noncomputable def getPriority (r : Request) (currentTime : ℝ) : ℝ :=
  priorityOfWait (r.getWaitTime currentTime) r.isGoingUp

/-- The priority formula is monotone in the wait time. -/
theorem priorityOfWait_mono (g : Bool) {w1 w2 : ℝ} (h : w1 ≤ w2) :
    priorityOfWait w1 g ≤ priorityOfWait w2 g := by
  unfold priorityOfWait
  have h1 : (if 3 < w1 then (w1 - 3) ^ (1.5 : ℝ) else 0) ≤
      (if 3 < w2 then (w2 - 3) ^ (1.5 : ℝ) else 0) := by
    split_ifs with ha hb hb
    · exact Real.rpow_le_rpow (by linarith) (by linarith) (by norm_num)
    · linarith
    · exact Real.rpow_nonneg (by linarith) _
    · exact le_refl 0
  have h2 : (if 10 < w1 then (400 : ℝ) else 0) ≤ (if 10 < w2 then (400 : ℝ) else 0) := by
    split_ifs <;> [exact le_refl _; linarith; norm_num; exact le_refl _]
  have h3 : (if 20 < w1 then (1000 : ℝ) else 0) ≤ (if 20 < w2 then (1000 : ℝ) else 0) := by
    split_ifs <;> [exact le_refl _; linarith; norm_num; exact le_refl _]
  linarith

/-- For wait times of at least 4 the priority dominates `waitTime - 2`,
because `(w - 3) ^ 1.5 ≥ w - 3` once `w - 3 ≥ 1` and every other summand
beyond the base is nonnegative (with direction bonus at least 30). -/
theorem priorityOfWait_lower_bound (g : Bool) {w : ℝ} (h4 : 4 ≤ w) :
    w - 2 ≤ priorityOfWait w g := by
  unfold priorityOfWait
  have h3 : (3 : ℝ) < w := by linarith
  rw [if_pos h3]
  have hx : w - 3 ≤ (w - 3) ^ (1.5 : ℝ) := by
    calc w - 3 = (w - 3) ^ (1 : ℝ) := (Real.rpow_one _).symm
    _ ≤ (w - 3) ^ (1.5 : ℝ) :=
        Real.rpow_le_rpow_of_exponent_le (by linarith) (by norm_num)
  have hb : (0 : ℝ) ≤ (if 10 < w then (400 : ℝ) else 0) := by
    split_ifs <;> norm_num
  have hc : (0 : ℝ) ≤ (if 20 < w then (1000 : ℝ) else 0) := by
    split_ifs <;> norm_num
  have hd : (30 : ℝ) ≤ (if g then (50 : ℝ) else 30) := by
    cases g <;> norm_num
  linarith

end Request

/-- C4: a request's priority score `getPriority(currentTime)` is
monotonically nondecreasing in its wait time, and unbounded: for every
bound `B` there is a wait time `W` past which the priority always exceeds
`B`. -/
theorem getPriority_monotone_and_unbounded (r : Request) :
    (∀ t1 t2 : ℝ, r.getWaitTime t1 ≤ r.getWaitTime t2 →
      r.getPriority t1 ≤ r.getPriority t2) ∧
    (∀ B : ℝ, ∃ W : ℝ, ∀ t : ℝ, W ≤ r.getWaitTime t → B < r.getPriority t) := by
  constructor
  · intro t1 t2 hw
    exact Request.priorityOfWait_mono r.isGoingUp hw
  · intro B
    refine ⟨max 4 (B + 3), fun t hW => ?_⟩
    have h4 : (4 : ℝ) ≤ r.getWaitTime t := le_trans (le_max_left _ _) hW
    have hB : B + 3 ≤ r.getWaitTime t := le_trans (le_max_right _ _) hW
    have := Request.priorityOfWait_lower_bound r.isGoingUp h4
    unfold Request.getPriority
    linarith

/-- C4 witness: monotonicity applied to a concrete request waiting from
time 0 to time 5, and unboundedness instantiated at bound 1000. -/
theorem getPriority_monotone_and_unbounded_witness :
    ((Request.mk0 "r" 1 2 0).getPriority 0 ≤ (Request.mk0 "r" 1 2 0).getPriority 5) ∧
    (∃ W : ℝ, ∀ t : ℝ, W ≤ (Request.mk0 "r" 1 2 0).getWaitTime t →
      1000 < (Request.mk0 "r" 1 2 0).getPriority t) :=
  ⟨(getPriority_monotone_and_unbounded (Request.mk0 "r" 1 2 0)).1 0 5
      (by norm_num [Request.getWaitTime, Request.mk0]),
    (getPriority_monotone_and_unbounded (Request.mk0 "r" 1 2 0)).2 1000⟩

/-- C5 counterexample: a freshly created upward request (wait time 0, below
the escalation threshold 3) has priority 51, not the base value 1 — the
unconditional direction bonus (50 up / 30 down) is always added. -/
theorem getPriority_base_value_counterexample :
    (Request.mk0 "r" 1 2 0).getWaitTime 0 ≤ 3 ∧
    (Request.mk0 "r" 1 2 0).getPriority 0 = 51 ∧ (51 : ℝ) ≠ 1 := by
  refine ⟨by norm_num [Request.getWaitTime, Request.mk0], ?_, by norm_num⟩
  unfold Request.getPriority Request.priorityOfWait Request.getWaitTime
    Request.isGoingUp Request.mk0
  norm_num

/-- C5 (amended): for wait times at or below the escalation threshold 3 the
priority is constant, but it equals `1 + directionBonus` (51 for upward, 31
for downward requests), not the base value 1: `getPriority` adds an
unconditional direction bonus on top of the base. -/
theorem getPriority_below_threshold (r : Request) (t : ℝ)
    (h : r.getWaitTime t ≤ 3) :
    r.getPriority t = (if r.isGoingUp then (51 : ℝ) else 31) := by
  unfold Request.getPriority Request.priorityOfWait
  rw [if_neg (by linarith : ¬ (3 : ℝ) < r.getWaitTime t),
    if_neg (by linarith : ¬ (10 : ℝ) < r.getWaitTime t),
    if_neg (by linarith : ¬ (20 : ℝ) < r.getWaitTime t)]
  cases hg : r.isGoingUp <;> norm_num

/-- C5 witness: the amended theorem applied to a concrete downward request
with wait time 0. -/
theorem getPriority_below_threshold_witness :
    (Request.mk0 "r" 5 2 0).getPriority 0 =
      (if (Request.mk0 "r" 5 2 0).isGoingUp then (51 : ℝ) else 31) :=
  getPriority_below_threshold (Request.mk0 "r" 5 2 0) 0
    (by norm_num [Request.getWaitTime, Request.mk0])

namespace Scheduler

/-- The Scheduler's `totalFloors` field is initialized to 20 and never
assigned again, regardless of the engine's configured floor count. -/
def totalFloors : ℤ := 20

/-- Scheduler `getAssignedRequests(elevator)`: the pending requests (as seen
through the scheduler's `pendingRequests` reference) that are assigned to
this elevator. -/
def getAssignedRequests (viewPending : List Request) (e : Elevator) : List Request :=
  viewPending.filter (fun r => r.isAssigned && r.assignedElevatorId == some e.id)

/-- Insertion into a JavaScript `Set` (insertion-ordered, deduplicating). -/
def insertUnique (l : List ℤ) (x : ℤ) : List ℤ :=
  if x ∈ l then l else l ++ [x]

/-- The `floorsToVisit` set built in `calculateRouteEfficiency`: current
floor, target floor (when defined), then for each assigned request its
origin floor if not yet picked up and its destination floor if not yet
delivered, in iteration order. -/
def floorsToVisit (e : Elevator) (assigned : List Request) : List ℤ :=
  let l0 := insertUnique [] e.currentFloor
  let l1 := match e.targetFloor with
    | some t => insertUnique l0 t
    | none => l0
  assigned.foldl (fun l r =>
    let l2 := if ¬ r.isPickupComplete then insertUnique l r.fromFloor else l
    if ¬ r.isDeliveryComplete then insertUnique l2 r.toFloor else l2) l1

/-- `calculateRouteLength(floors)`: 0 for at most one floor, otherwise the
sum of distances between consecutive floors after sorting ascending. -/
def calculateRouteLength (floors : List ℤ) : ℤ :=
  if floors.length ≤ 1 then 0
  else
    let sorted := floors.mergeSort (fun a b => a ≤ b)
    (sorted.zip sorted.tail).foldl (fun acc p => acc + |p.2 - p.1|) 0

/-- `calculateRouteEfficiency(elevator, request, _)`: 1 when both request
floors already lie on the elevator's planned stop set, 0.95 when one does,
otherwise decaying with the extra route length the request adds; with no
assigned requests, decaying with the distance to the request origin. -/
def calculateRouteEfficiency (viewPending : List Request) (e : Elevator)
    (r : Request) : ℚ :=
  let assigned := getAssignedRequests viewPending e
  if assigned.isEmpty then
    max 0 (1 - (e.getDistanceToFloor r.fromFloor : ℚ) / (totalFloors : ℚ))
  else
    let fl := floorsToVisit e assigned
    if r.fromFloor ∈ fl ∧ r.toFloor ∈ fl then 1
    else if r.fromFloor ∈ fl ∨ r.toFloor ∈ fl then 0.95
    else
      let newFloors := fl ++ [r.fromFloor, r.toFloor]
      let routeIncrease := calculateRouteLength newFloors - calculateRouteLength fl
      max 0 (1 - (routeIncrease : ℚ) / ((totalFloors : ℚ) * 3.5))

/-- `calculateDirectionMatch(elevator, request)`: 0.8 for an idle elevator,
1 for a matching direction, 0.5 for a mismatch. -/
def calculateDirectionMatch (e : Elevator) (r : Request) : ℚ :=
  if e.direction = Direction.idle then 0.8
  else
    let requestDirection := if r.fromFloor < r.toFloor then Direction.up else Direction.down
    if e.direction = requestDirection then 1 else 0.5

/-- `isHighTrafficFloor(floor)`: the lobby (floor 1) and floors 10-15. -/
def isHighTrafficFloor (floor : ℤ) : Bool :=
  floor == 1 || (10 ≤ floor && floor ≤ 15)

/-- `calculateUserExperienceBonus(request)`: wait-time step bonuses
(400/200/100 past 30/20/10 seconds of wall-clock wait), a morning-rush
lobby bonus of 150, and a high-traffic-floor bonus of 80. `Date.now()` and
the wall-clock rush-hour test are environment inputs `wallNow` and
`isMorningRushWall`. -/
noncomputable def calculateUserExperienceBonus (wallNow : ℝ)
    (isMorningRushWall : Bool) (r : Request) : ℝ :=
  let waitTime := r.getWaitTime wallNow
  let b1 : ℝ :=
    if 30 < waitTime then 400
    else if 20 < waitTime then 200
    else if 10 < waitTime then 100
    else 0
  let b2 : ℝ := if isMorningRushWall ∧ r.fromFloor = 1 ∧ 1 < r.toFloor then 150 else 0
  let b3 : ℝ := if isHighTrafficFloor r.fromFloor then 80 else 0
  b1 + b2 + b3

/-- `calculateHybridAggressiveScore(elevator, request, pendingRequests)`:
the weighted five-factor score (distance 35%, load 20%, route 25%,
direction 15%, priority 3%, user-experience 2%). Only the total score is
modelled; the source returns it in a record whose other fields
`findBestElevator` ignores. -/
noncomputable def calculateHybridAggressiveScore (wallNow : ℝ)
    (isMorningRushWall : Bool) (viewPending : List Request) (r : Request)
    (e : Elevator) : ℝ :=
  let distance : ℤ := e.getDistanceToFloor r.fromFloor
  let currentLoad : ℤ := e.assignedRequests.length
  let passengerLoad : ℝ := (e.passengerCount : ℝ) / (e.maxCapacity : ℝ)
  let totalLoad : ℝ := (currentLoad : ℝ) + passengerLoad
  let requestPriority : ℝ := r.getPriority wallNow
  let routeEfficiency : ℚ := calculateRouteEfficiency viewPending e r
  let directionMatch : ℚ := calculateDirectionMatch e r
  let userExperienceBonus : ℝ :=
    calculateUserExperienceBonus wallNow isMorningRushWall r
  let directDistance : ℝ := max 0 (100 - (distance : ℝ) * 0.6)
  let loadAdjustedDistance : ℝ := directDistance * (1 - totalLoad * 0.1)
  let distanceScore : ℝ := max 0 loadAdjustedDistance
  let loadScore : ℝ := max 0 (100 - totalLoad * 25)
  let routeScore : ℝ := (routeEfficiency : ℝ) * 100
  let directionScore : ℝ := (directionMatch : ℝ) * 100
  let priorityScore : ℝ := min 100 (requestPriority * 1.5)
  let experienceScore : ℝ := userExperienceBonus
  distanceScore * 0.35 + loadScore * 0.2 + routeScore * 0.25 +
    directionScore * 0.15 + priorityScore * 0.03 + experienceScore * 0.02

/-- Head of the stable descending sort by score: JavaScript's stable
`sort((a, b) => b.score - a.score)` followed by `[0]` returns the earliest
element achieving the maximal score, which this recursion computes. -/
noncomputable def selectBest (score : Elevator → ℝ) : List Elevator → Option Elevator
  | [] => none
  | e :: rest =>
    match selectBest score rest with
    | none => some e
    | some b => if score e < score b then some b else some e

/-- `findBestElevator(request, pendingRequests)`: null for an empty fleet
or when no elevator has spare capacity, otherwise the capacity-filtered
elevator with the highest hybrid aggressive score (earliest in fleet order
on ties). -/
noncomputable def findBestElevator (wallNow : ℝ) (isMorningRushWall : Bool)
    (viewPending : List Request) (r : Request) (elevators : List Elevator) :
    Option Elevator :=
  if elevators.isEmpty then none
  else
    let available := elevators.filter Elevator.hasCapacity
    if available.isEmpty then none
    else
      selectBest
        (calculateHybridAggressiveScore wallNow isMorningRushWall viewPending r)
        available

theorem selectBest_cons_of_none {score : Elevator → ℝ} {e : Elevator}
    {rest : List Elevator} (h : selectBest score rest = none) :
    selectBest score (e :: rest) = some e := by
  simp only [selectBest, h]

theorem selectBest_cons_of_some {score : Elevator → ℝ} {e c : Elevator}
    {rest : List Elevator} (h : selectBest score rest = some c) :
    selectBest score (e :: rest) = if score e < score c then some c else some e := by
  simp only [selectBest, h]

theorem selectBest_eq_none {score : Elevator → ℝ} {l : List Elevator} :
    selectBest score l = none ↔ l = [] := by
  cases l with
  | nil => simp [selectBest]
  | cons e rest =>
    simp only [List.cons_ne_nil, iff_false]
    intro hc
    cases hr : selectBest score rest with
    | none => rw [selectBest_cons_of_none hr] at hc; exact absurd hc (by simp)
    | some c =>
      rw [selectBest_cons_of_some hr] at hc
      by_cases hs : score e < score c
      · rw [if_pos hs] at hc; exact absurd hc (by simp)
      · rw [if_neg hs] at hc; exact absurd hc (by simp)

theorem selectBest_mem_max {score : Elevator → ℝ} {l : List Elevator} :
    ∀ {b : Elevator}, selectBest score l = some b →
      b ∈ l ∧ ∀ y ∈ l, score y ≤ score b := by
  induction l with
  | nil => intro b h; simp [selectBest] at h
  | cons e rest ih =>
    intro b h
    cases hr : selectBest score rest with
    | none =>
      rw [selectBest_cons_of_none hr] at h
      obtain rfl : e = b := Option.some.inj h
      have hrest : rest = [] := selectBest_eq_none.mp hr
      subst hrest
      exact ⟨List.mem_singleton_self _, by simp⟩
    | some c =>
      rw [selectBest_cons_of_some hr] at h
      obtain ⟨hcmem, hcmax⟩ := ih hr
      by_cases hs : score e < score c
      · rw [if_pos hs] at h
        obtain rfl : c = b := Option.some.inj h
        refine ⟨List.mem_cons_of_mem _ hcmem, ?_⟩
        intro y hy
        rcases List.mem_cons.mp hy with rfl | hy2
        · exact le_of_lt hs
        · exact hcmax y hy2
      · rw [if_neg hs] at h
        obtain rfl : e = b := Option.some.inj h
        push_neg at hs
        refine ⟨List.mem_cons_self _ _, ?_⟩
        intro y hy
        rcases List.mem_cons.mp hy with rfl | hy2
        · exact le_refl _
        · exact le_trans (hcmax y hy2) hs

theorem selectBest_first {score : Elevator → ℝ} {l : List Elevator} :
    ∀ {b : Elevator}, selectBest score l = some b →
      ∃ l1 l2, l = l1 ++ b :: l2 ∧ ∀ y ∈ l1, score y < score b := by
  induction l with
  | nil => intro b h; simp [selectBest] at h
  | cons e rest ih =>
    intro b h
    cases hr : selectBest score rest with
    | none =>
      rw [selectBest_cons_of_none hr] at h
      obtain rfl : e = b := Option.some.inj h
      exact ⟨[], rest, rfl, by simp⟩
    | some c =>
      rw [selectBest_cons_of_some hr] at h
      by_cases hs : score e < score c
      · rw [if_pos hs] at h
        obtain rfl : c = b := Option.some.inj h
        obtain ⟨l1, l2, heq, hlt⟩ := ih hr
        refine ⟨e :: l1, l2, by rw [heq, List.cons_append], ?_⟩
        intro y hy
        rcases List.mem_cons.mp hy with rfl | hy2
        · exact hs
        · exact hlt y hy2
      · rw [if_neg hs] at h
        obtain rfl : e = b := Option.some.inj h
        exact ⟨[], rest, rfl, by simp⟩

end Scheduler

/-- C1: for a non-empty fleet (listed in increasing id order, as the engine
creates it), `findBestElevator` returns none exactly when no elevator has
spare capacity; otherwise it returns a spare-capacity elevator of maximal
hybrid aggressive score, and on score ties the one with the lowest id. -/
theorem findBestElevator_spec (wallNow : ℝ) (isMorningRushWall : Bool)
    (viewPending : List Request) (r : Request) (elevators : List Elevator)
    (hne : elevators ≠ [])
    (hids : elevators.Pairwise (fun a b => a.id < b.id)) :
    (Scheduler.findBestElevator wallNow isMorningRushWall viewPending r elevators =
        none ↔ ∀ e ∈ elevators, e.hasCapacity = false) ∧
    (∀ b, Scheduler.findBestElevator wallNow isMorningRushWall viewPending r elevators =
        some b →
      b ∈ elevators ∧ b.hasCapacity = true ∧
      (∀ e ∈ elevators, e.hasCapacity = true →
        Scheduler.calculateHybridAggressiveScore wallNow isMorningRushWall viewPending r e ≤
          Scheduler.calculateHybridAggressiveScore wallNow isMorningRushWall viewPending r b) ∧
      (∀ e ∈ elevators, e.hasCapacity = true →
        Scheduler.calculateHybridAggressiveScore wallNow isMorningRushWall viewPending r e =
          Scheduler.calculateHybridAggressiveScore wallNow isMorningRushWall viewPending r b →
        b.id ≤ e.id)) := by
  unfold Scheduler.findBestElevator
  rw [if_neg (by simpa [List.isEmpty_iff] using hne)]
  by_cases hav : (elevators.filter Elevator.hasCapacity).isEmpty
  · rw [if_pos hav]
    have hnil : elevators.filter Elevator.hasCapacity = [] := List.isEmpty_iff.mp hav
    constructor
    · simp only [true_iff]
      intro e he
      by_contra hcap
      have : e ∈ elevators.filter Elevator.hasCapacity :=
        List.mem_filter.mpr ⟨he, by revert hcap; cases e.hasCapacity <;> simp⟩
      rw [hnil] at this
      exact absurd this (List.not_mem_nil e)
    · intro b hb
      exact absurd hb (by simp)
  · rw [if_neg hav]
    have hnil : elevators.filter Elevator.hasCapacity ≠ [] := by
      intro hc
      rw [hc] at hav
      exact hav rfl
    constructor
    · constructor
      · intro hnone
        exact absurd (Scheduler.selectBest_eq_none.mp hnone) hnil
      · intro hall
        exfalso
        apply hnil
        rw [List.filter_eq_nil_iff]
        intro e he
        rw [hall e he]
        simp
    · intro b hb
      obtain ⟨hmem, hmax⟩ := Scheduler.selectBest_mem_max hb
      have hbel : b ∈ elevators ∧ b.hasCapacity = true := by
        have := List.mem_filter.mp hmem
        exact ⟨this.1, this.2⟩
      refine ⟨hbel.1, hbel.2, ?_, ?_⟩
      · intro e he hcap
        exact hmax e (List.mem_filter.mpr ⟨he, hcap⟩)
      · intro e he hcap heq
        obtain ⟨l1, l2, hdec, hlt⟩ := Scheduler.selectBest_first hb
        have hef : e ∈ elevators.filter Elevator.hasCapacity :=
          List.mem_filter.mpr ⟨he, hcap⟩
        have hpair : (elevators.filter Elevator.hasCapacity).Pairwise
            (fun a b => a.id < b.id) :=
          List.Pairwise.sublist (List.filter_sublist elevators) hids
        rw [hdec] at hef hpair
        rcases List.mem_append.mp hef with h1 | h12
        · exact absurd heq (ne_of_lt (hlt e h1))
        · rcases List.mem_cons.mp h12 with rfl | h2
          · exact le_refl _
          · have := (List.pairwise_append.mp hpair).2.1
            exact le_of_lt (List.rel_of_pairwise_cons this h2)

/-- C1 witness: the scheduler theorem applied to a concrete two-elevator
fleet (ids 1 and 2) and a concrete request from floor 3 to floor 7. -/
theorem findBestElevator_spec_witness :
    (Scheduler.findBestElevator 0 false [] (Request.mk0 "r" 3 7 0)
        [Elevator.mk0 1 15 1, Elevator.mk0 2 15 5] = none ↔
      ∀ e ∈ [Elevator.mk0 1 15 1, Elevator.mk0 2 15 5], e.hasCapacity = false) ∧
    (∀ b, Scheduler.findBestElevator 0 false [] (Request.mk0 "r" 3 7 0)
        [Elevator.mk0 1 15 1, Elevator.mk0 2 15 5] = some b →
      b ∈ [Elevator.mk0 1 15 1, Elevator.mk0 2 15 5] ∧ b.hasCapacity = true ∧
      (∀ e ∈ [Elevator.mk0 1 15 1, Elevator.mk0 2 15 5], e.hasCapacity = true →
        Scheduler.calculateHybridAggressiveScore 0 false [] (Request.mk0 "r" 3 7 0) e ≤
          Scheduler.calculateHybridAggressiveScore 0 false [] (Request.mk0 "r" 3 7 0) b) ∧
      (∀ e ∈ [Elevator.mk0 1 15 1, Elevator.mk0 2 15 5], e.hasCapacity = true →
        Scheduler.calculateHybridAggressiveScore 0 false [] (Request.mk0 "r" 3 7 0) e =
          Scheduler.calculateHybridAggressiveScore 0 false [] (Request.mk0 "r" 3 7 0) b →
        b.id ≤ e.id)) :=
  findBestElevator_spec 0 false [] (Request.mk0 "r" 3 7 0)
    [Elevator.mk0 1 15 1, Elevator.mk0 2 15 5] (by decide) (by decide)

section StableSort

variable {α : Type}

/-- Insertion step of a stable insertion sort: `x` (earlier in the original
order) is placed before the first `y` with `before x y`. -/
def stableInsertB (before : α → α → Bool) (x : α) : List α → List α
  | [] => [x]
  | y :: ys => if before x y then x :: y :: ys else y :: stableInsertB before x ys

/-- Stable sort modelling JavaScript's stable `Array.prototype.sort` with a
numeric comparator `c`: `before x y` encodes `c(x, y) ≤ 0` (so equal keys
keep their original relative order). -/
def stableSortB (before : α → α → Bool) (l : List α) : List α :=
  l.foldr (stableInsertB before) []

theorem stableInsertB_perm (before : α → α → Bool) (x : α) (l : List α) :
    List.Perm (stableInsertB before x l) (x :: l) := by
  induction l with
  | nil => exact List.Perm.refl _
  | cons y ys ih =>
    by_cases h : before x y
    · rw [stableInsertB, if_pos h]
    · rw [stableInsertB, if_neg h]
      exact List.Perm.trans (ih.cons y) (List.Perm.swap x y ys)

theorem stableSortB_perm (before : α → α → Bool) (l : List α) :
    List.Perm (stableSortB before l) l := by
  induction l with
  | nil => exact List.Perm.refl _
  | cons y ys ih =>
    exact List.Perm.trans
      (stableInsertB_perm before y (stableSortB before ys)) (ih.cons y)

theorem stableSortB_length (before : α → α → Bool) (l : List α) :
    (stableSortB before l).length = l.length :=
  (stableSortB_perm before l).length_eq

end StableSort

namespace Scheduler

/-- Comparator of `updateElevatorTarget`'s sort: when priorities (evaluated
at `Date.now()`) are within 25 of each other, order by descending route
efficiency, otherwise by descending priority. `before a b` is
`comparator(a, b) ≤ 0`. -/
noncomputable def updateTargetBefore (wallNow : ℝ) (viewPending : List Request)
    (e : Elevator) (a b : Request) : Bool :=
  decide (if |a.getPriority wallNow - b.getPriority wallNow| < 25
    then calculateRouteEfficiency viewPending e b ≤ calculateRouteEfficiency viewPending e a
    else b.getPriority wallNow ≤ a.getPriority wallNow)

/-- `updateElevatorTarget(elevator)`: pick the head of the stably sorted
assigned-request list and target its origin floor if not yet picked up,
else its destination floor; no change when no request is assigned. -/
noncomputable def schedUpdateElevatorTarget (wallNow : ℝ)
    (viewPending : List Request) (e : Elevator) : Elevator :=
  let assigned := getAssignedRequests viewPending e
  if assigned.isEmpty then e
  else
    match stableSortB (updateTargetBefore wallNow viewPending e) assigned with
    | [] => e
    | next :: _ =>
      if ¬ next.isPickupComplete then e.setTarget next.fromFloor
      else e.setTarget next.toFloor

end Scheduler

/-- Rush-hour generation mode: "normal" | "morning" | "evening". -/
inductive RushType where
  | normal
  | morning
  | evening
deriving DecidableEq, Repr

/-- Full state of the `SimulationEngine` class. `schedInit` records whether
`scheduler.setPendingRequests` has been called since the scheduler was
created: the scheduler's `pendingRequests` field aliases the engine's array
once set (JavaScript reference semantics) and is the empty literal before
that, so the scheduler's view of the pool is `pendingRequests` when
`schedInit` and `[]` otherwise. -/
structure SimulationEngine where
  isRunning : Bool
  currentTime : ℝ
  speed : ℝ
  totalFloors : ℤ
  totalElevators : ℕ
  elevators : List Elevator
  pendingRequests : List Request
  requestFrequency : ℝ
  lastRequestTime : ℝ
  totalRequests : ℕ
  completedRequests : ℕ
  averageWaitTime : ℝ
  maxWaitTime : ℝ
  averageTravelTime : ℝ
  elevatorUtilization : ℝ
  completedRequestsWithTimes : List (ℝ × ℝ × ℝ)
  isRushHour : Bool
  rushHourType : RushType
  simulationHour : ℤ
  schedInit : Bool

/-- Per-tick environment inputs: the wall-clock `Date.now()` value used by
the scheduler, the wall-clock morning-rush-hour test, the generated request
id, and the stream of `Math.random()` draws (each in `[0,1)`). -/
structure TickEnv where
  wallNow : ℝ
  isMorningRushWall : Bool
  newId : String
  draws : List ℚ

namespace SimulationEngine

/-- `createElevators()`: elevators with ids 1..N, capacity 15, starting
floor `Math.floor(i * (totalFloors / totalElevators)) + 1`. -/
def createElevators (totalFloors : ℤ) (totalElevators : ℕ) : List Elevator :=
  (List.range totalElevators).map (fun i =>
    Elevator.mk0 ((i : ℤ) + 1) 15
      (⌊(i : ℚ) * ((totalFloors : ℚ) / (totalElevators : ℚ))⌋ + 1))

/-- The `SimulationEngine` constructor (defaults: 20 floors, 4 elevators);
`hour0` is the wall-clock hour read by `new Date().getHours()`. -/
def mkEngine (totalFloors : ℤ) (totalElevators : ℕ) (hour0 : ℤ) : SimulationEngine :=
  { isRunning := false
    currentTime := 0
    speed := 1
    totalFloors := totalFloors
    totalElevators := totalElevators
    elevators := createElevators totalFloors totalElevators
    pendingRequests := []
    requestFrequency := 1
    lastRequestTime := 0
    totalRequests := 0
    completedRequests := 0
    averageWaitTime := 0
    maxWaitTime := 0
    averageTravelTime := 0
    elevatorUtilization := 0
    completedRequestsWithTimes := []
    isRushHour := false
    rushHourType := RushType.normal
    simulationHour := hour0
    schedInit := false }

/-- `start()`. -/
def start (s : SimulationEngine) : SimulationEngine := { s with isRunning := true }

/-- `stop()` (log-file writing is I/O outside the model). -/
def stopEngine (s : SimulationEngine) : SimulationEngine := { s with isRunning := false }

/-- `reset()`: clears the clock, pool, counters and statistics, recreates
the fleet and the scheduler (so the scheduler's pending view is empty
again); speed, frequency and rush-hour state are not reset. -/
def reset (s : SimulationEngine) : SimulationEngine :=
  { s with
      isRunning := false
      currentTime := 0
      pendingRequests := []
      totalRequests := 0
      completedRequests := 0
      averageWaitTime := 0
      maxWaitTime := 0
      averageTravelTime := 0
      elevatorUtilization := 0
      completedRequestsWithTimes := []
      lastRequestTime := 0
      elevators := createElevators s.totalFloors s.totalElevators
      schedInit := false }

/-- `setSpeed(speed)`. -/
def setSpeed (speed : ℝ) (s : SimulationEngine) : SimulationEngine :=
  { s with speed := speed }

/-- `setRequestFrequency(frequency)`. -/
def setRequestFrequency (frequency : ℝ) (s : SimulationEngine) : SimulationEngine :=
  { s with requestFrequency := frequency }

/-- `startMorningRush()`. -/
def startMorningRush (s : SimulationEngine) : SimulationEngine :=
  { s with isRushHour := true, rushHourType := RushType.morning,
           simulationHour := 9, requestFrequency := 2 }

/-- `startEveningRush()`. -/
def startEveningRush (s : SimulationEngine) : SimulationEngine :=
  { s with isRushHour := true, rushHourType := RushType.evening,
           simulationHour := 18, requestFrequency := 2 }

/-- `endRushHour()`. -/
def endRushHour (s : SimulationEngine) : SimulationEngine :=
  { s with isRushHour := false, rushHourType := RushType.normal,
           requestFrequency := 1 }

/-- The scheduler's view of the pending pool (see `schedInit`). -/
def schedView (s : SimulationEngine) : List Request :=
  if s.schedInit then s.pendingRequests else []

/-- One floor draw `Math.floor(u * totalFloors) + 1` for `u ∈ [0,1)`. -/
def drawFloor (F : ℤ) (u : ℚ) : ℤ :=
  ⌊u * (F : ℚ)⌋ + 1

/-- The `while (toFloor === fromFloor)` re-roll loop: the first draw whose
floor differs from `avoid` wins; `none` when the supplied draw list is
exhausted (the real loop would keep drawing). -/
def rerollFloor (F : ℤ) (avoid : ℤ) : List ℚ → Option ℤ
  | [] => none
  | u :: us =>
    let t := drawFloor F u
    if t = avoid then rerollFloor F avoid us else some t

/-- `generateRushHourRequest()`: morning rush sends 70% of requests from
the lobby to `Math.floor(u * (totalFloors - 1)) + 2`; evening rush is the
mirror image; the defensive "normal" branch generates a plain random
request. Draws are consumed left to right. -/
def generateRushHourRequest (F : ℤ) (rtype : RushType) (now : ℝ) (id : String) :
    List ℚ → Option Request
  | [] => none
  | u0 :: rest =>
    match rtype with
    | RushType.morning =>
      if u0 < 7/10 then
        match rest with
        | u1 :: _ => some (Request.mk0 id 1 (⌊u1 * ((F : ℚ) - 1)⌋ + 2) now)
        | [] => none
      else
        match rest with
        | u1 :: rest2 =>
          let fromFloor := drawFloor F u1
          (rerollFloor F fromFloor rest2).map
            (fun toFloor => Request.mk0 id fromFloor toFloor now)
        | [] => none
    | RushType.evening =>
      if u0 < 7/10 then
        match rest with
        | u1 :: _ => some (Request.mk0 id (⌊u1 * ((F : ℚ) - 1)⌋ + 2) 1 now)
        | [] => none
      else
        match rest with
        | u1 :: rest2 =>
          let toFloor := drawFloor F u1
          (rerollFloor F toFloor rest2).map
            (fun fromFloor => Request.mk0 id fromFloor toFloor now)
        | [] => none
    | RushType.normal =>
      let fromFloor := drawFloor F u0
      (rerollFloor F fromFloor rest).map
        (fun toFloor => Request.mk0 id fromFloor toFloor now)

/-- `generateRandomRequest()`: rush-hour generation when the rush flag is
set, otherwise a uniform origin and a re-rolled distinct destination. -/
def generateRandomRequest (F : ℤ) (isRush : Bool) (rtype : RushType) (now : ℝ)
    (id : String) (draws : List ℚ) : Option Request :=
  if isRush then generateRushHourRequest F rtype now id draws
  else
    match draws with
    | [] => none
    | u1 :: rest =>
      let fromFloor := drawFloor F u1
      (rerollFloor F fromFloor rest).map
        (fun toFloor => Request.mk0 id fromFloor toFloor now)

/-- `generateRequests()`: when at least `1 / requestFrequency` time has
passed since the last generation, push one generated request, bump the
total counter and remember the time. JavaScript `1 / 0 = Infinity` makes
the condition unsatisfiable at frequency 0, hence the explicit zero guard;
`none` propagates a generator that ran out of draws. -/
noncomputable def generateRequests (env : TickEnv) (s : SimulationEngine) :
    Option SimulationEngine :=
  if s.requestFrequency ≠ 0 ∧ 1 / s.requestFrequency ≤ s.currentTime - s.lastRequestTime then
    match generateRandomRequest s.totalFloors s.isRushHour s.rushHourType
        s.currentTime env.newId env.draws with
    | some r =>
      some { s with
        pendingRequests := s.pendingRequests ++ [r]
        totalRequests := s.totalRequests + 1
        lastRequestTime := s.currentTime }
    | none => none
  else some s

/-- Updates the element at position `i` in place (mutation of the object
referenced by a JavaScript array slot); out-of-range indices do nothing. -/
def modifyAt (l : List Elevator) (i : ℕ) (f : Elevator → Elevator) : List Elevator :=
  match l[i]? with
  | some e => l.set i (f e)
  | none => l

/-- One iteration of `emergencyRebalancing`'s reassignment loop: look the
request id up in the pool; if found and not yet picked up, point it at the
underloaded elevator, drop the id from the overloaded elevator's assigned
list and push it onto the underloaded one's. -/
def rebalanceOne (unId : ℤ) (ovIdx unIdx : ℕ) (requestId : String)
    (st : List Request × List Elevator) : List Request × List Elevator :=
  match st.1.findIdx? (fun r => r.id == requestId) with
  | none => st
  | some j =>
    match st.1[j]? with
    | none => st
    | some r =>
      if r.isPickupComplete then st
      else
        let pending2 := st.1.set j { r with assignedElevatorId := some unId }
        let elevs2 := modifyAt st.2 ovIdx (fun e =>
          { e with assignedRequests :=
              e.assignedRequests.filter (fun id2 => ¬ id2 == requestId) })
        let elevs3 := modifyAt elevs2 unIdx (fun e =>
          { e with assignedRequests := e.assignedRequests ++ [requestId] })
        (pending2, elevs3)

/-- `emergencyRebalancing()`: when the spread between the most and least
loaded elevators exceeds 3, move the first `Math.floor(diff / 1.5)` of the
overloaded elevator's assigned ids to the (first) most underloaded one.
`Math.max()`/`Math.min()` of an empty fleet are infinite and never trip the
threshold, so an empty fleet is returned unchanged. -/
def emergencyRebalancing (s : SimulationEngine) : SimulationEngine :=
  if s.elevators.isEmpty then s
  else
    let loads := s.elevators.map (fun e => e.assignedRequests.length)
    let maxLoad := loads.foldr max 0
    let minLoad := loads.foldr min maxLoad
    if 3 < maxLoad - minLoad then
      match s.elevators.findIdx? (fun e => e.assignedRequests.length == maxLoad),
          s.elevators.findIdx? (fun e => e.assignedRequests.length == minLoad) with
      | some ovIdx, some unIdx =>
        match s.elevators[ovIdx]?, s.elevators[unIdx]? with
        | some ov, some un =>
          let requestsToMove := 2 * (maxLoad - minLoad) / 3
          let ids := ov.assignedRequests.take requestsToMove
          let res := ids.foldl
            (fun st rid => rebalanceOne un.id ovIdx unIdx rid st)
            (s.pendingRequests, s.elevators)
          { s with pendingRequests := res.1, elevators := res.2 }
        | _, _ => s
      | _, _ => s
    else s

/-- Map-insertion step of `getHighTrafficFloor`'s floor counting: a
JavaScript `Map` keeps insertion order and updates existing keys in
place. -/
def upsert (m : List (ℤ × ℕ)) (k : ℤ) (add : ℕ) : List (ℤ × ℕ) :=
  if m.any (fun p => p.1 == k) then
    m.map (fun p => if p.1 == k then (p.1, p.2 + add) else p)
  else m ++ [(k, add)]

/-- `getHighTrafficFloor()`: weighted counts over unassigned requests
(origin +3, destination +1), then the first floor in insertion order with
the strictly largest count; `null` when no floor scored at least 1. -/
def getHighTrafficFloor (pending : List Request) : Option ℤ :=
  let counts := pending.foldl (fun m r =>
    if r.isAssigned then m
    else upsert (upsert m r.fromFloor 3) r.toFloor 1) ([] : List (ℤ × ℕ))
  let best := counts.foldl
    (fun (acc : Option ℤ × ℕ) p => if acc.2 < p.2 then (some p.1, p.2) else acc)
    (none, 0)
  if 1 ≤ best.2 then best.1 else none

/-- `predictivePositioning()`: retarget every idle, empty, unassigned
elevator at the high-traffic floor when it is farther than 2 floors away.
The JavaScript truthiness test `if (highTrafficFloor && ...)` also skips
floor 0. -/
def predictivePositioning (s : SimulationEngine) : SimulationEngine :=
  { s with
      elevators := s.elevators.map (fun e =>
        if e.isIdle && e.passengerCount == 0 && e.assignedRequests.isEmpty then
          match getHighTrafficFloor s.pendingRequests with
          | some f =>
            if ¬ f = 0 ∧ 2 < |e.currentFloor - f| then e.setTarget f else e
          | none => e
        else e) }

/-- Comparator of `sortRequestsByPriority` (descending priority at the
simulation clock); `before a b` is `comparator(a, b) ≤ 0`. -/
noncomputable def priorityBefore (now : ℝ) (a b : Request) : Bool :=
  decide (b.getPriority now ≤ a.getPriority now)

/-- `sortRequestsByPriority()`: stable in-place sort of the pool by
descending priority. -/
noncomputable def sortRequestsByPriority (s : SimulationEngine) : SimulationEngine :=
  { s with pendingRequests :=
      stableSortB (priorityBefore s.currentTime) s.pendingRequests }

/-- Scheduler `assignRequest(request, elevator)` as invoked with the
request at pool position `i` and the elevator at fleet position `j`: mark
the request assigned to the elevator, push its id onto the elevator's
assigned list, and re-derive that elevator's target from the scheduler's
pending view (which contains the just-mutated request when initialized). -/
noncomputable def assignToElevator (wallNow : ℝ) (s : SimulationEngine)
    (i : ℕ) (r : Request) (j : ℕ) (e : Elevator) : SimulationEngine :=
  let r1 := { r with isAssigned := true, assignedElevatorId := some e.id }
  let pending1 := s.pendingRequests.set i r1
  let e1 := { e with assignedRequests := e.assignedRequests ++ [r1.id] }
  let view := if s.schedInit then pending1 else []
  let e2 := Scheduler.schedUpdateElevatorTarget wallNow view e1
  { s with pendingRequests := pending1, elevators := s.elevators.set j e2 }

/-- Body of the `processRequests` loop for pool position `i`: skip
missing/assigned requests; a pre-assigned elevator id that exists in the
fleet short-circuits into direct assignment; otherwise
`setPendingRequests` (recorded in `schedInit`) and scoring-based
assignment via `findBestElevator`. -/
noncomputable def processOneRequest (wallNow : ℝ) (isMorningRushWall : Bool)
    (s : SimulationEngine) (i : ℕ) : SimulationEngine :=
  match s.pendingRequests[i]? with
  | none => s
  | some r =>
    if r.isAssigned then s
    else
      let viaManual : Option SimulationEngine :=
        match r.assignedElevatorId with
        | some eid =>
          match s.elevators.findIdx? (fun e => e.id == eid) with
          | some j => (s.elevators[j]?).map (assignToElevator wallNow s i r j)
          | none => none
        | none => none
      match viaManual with
      | some s2 => s2
      | none =>
        let s1 := { s with schedInit := true }
        match Scheduler.findBestElevator wallNow isMorningRushWall
            s1.pendingRequests r s1.elevators with
        | some best =>
          match s1.elevators.findIdx? (fun e => e == best) with
          | some j => assignToElevator wallNow s1 i r j best
          | none => s1
        | none => s1

/-- `processRequests()`: rebalance, predictively position, sort the pool
when it holds more than 3 requests, then attempt assignment for each pool
position in order. -/
noncomputable def processRequests (wallNow : ℝ) (isMorningRushWall : Bool)
    (s : SimulationEngine) : SimulationEngine :=
  let s1 := emergencyRebalancing s
  let s2 := predictivePositioning s1
  let s3 := if 3 < s2.pendingRequests.length then sortRequestsByPriority s2 else s2
  (List.range s3.pendingRequests.length).foldl
    (processOneRequest wallNow isMorningRushWall) s3

/-- `findIndex` by request id followed by `splice(index, 1)`: remove the
first pool entry with the given id, no-op when absent. -/
def spliceById (pl : List Request) (cid : String) : List Request :=
  match pl with
  | [] => []
  | r :: rs => if r.id == cid then rs else r :: spliceById rs cid

/-- `findIndex` followed by `splice(index, 1)` on a list of ids. -/
def spliceId (ids : List String) (cid : String) : List String :=
  match ids with
  | [] => []
  | x :: xs => if x == cid then xs else x :: spliceId xs cid

/-- JavaScript `x || dflt` on an optional number: `undefined` and `0` are
falsy. -/
noncomputable def jsOr (o : Option ℝ) (dflt : ℝ) : ℝ :=
  match o with
  | none => dflt
  | some v => if v = 0 then dflt else v

/-- The `processPassengers` filter: requests assigned to this elevator that
need a pickup or a delivery at its current floor. -/
def ppCond (e : Elevator) (r : Request) : Bool :=
  r.isAssigned && r.assignedElevatorId == some e.id &&
    ((r.fromFloor == e.currentFloor && !r.isPickupComplete) ||
     (r.toFloor == e.currentFloor && r.isPickupComplete && !r.isDeliveryComplete))

/-- The pickup half of one `processPassengers` loop iteration: a request
awaiting pickup at the elevator's floor boards (guarded by `hasCapacity`,
then `addPassengers(1)`), recording the pickup time. -/
noncomputable def ppPickup (now : ℝ) (e : Elevator) (r0 : Request) :
    Elevator × Request :=
  if r0.fromFloor == e.currentFloor && !r0.isPickupComplete then
    if e.hasCapacity then
      ((e.addPassengers 1).2,
        { r0 with isPickupComplete := true, pickupTime := some now })
    else (e, r0)
  else (e, r0)

/-- One iteration of the `processPassengers` loop at pool position `i`:
pick up, then deliver (`removePassengers(1)`, completion bookkeeping,
request detached from its elevator). State: elevator, pool, delivered
requests, recorded (wait, travel, completion) time triples. -/
noncomputable def ppStep (now : ℝ)
    (st : Elevator × List Request × List Request × List (ℝ × ℝ × ℝ)) (i : ℕ) :
    Elevator × List Request × List Request × List (ℝ × ℝ × ℝ) :=
  let (e, pending, completed, times) := st
  match pending[i]? with
  | none => st
  | some r0 =>
    let pick := ppPickup now e r0
    let e1 := pick.1
    let r1 := pick.2
    if r1.toFloor == e1.currentFloor && r1.isPickupComplete && !r1.isDeliveryComplete then
      let e2 := (e1.removePassengers 1).2
      let r2 := { r1 with
        isDeliveryComplete := true
        deliveryTime := some now
        isAssigned := false
        assignedElevatorId := none }
      let waitTime := jsOr r1.pickupTime now - r1.timestamp
      let travelTime := jsOr r2.deliveryTime now - jsOr r2.pickupTime now
      (e2, pending.set i r2, completed ++ [r2], times ++ [(waitTime, travelTime, now)])
    else
      (e1, pending.set i r1, completed, times)

/-- `processPassengers(elevator)`: process every matching pool position,
then splice each delivered request out of the pool (first index with its
id) and out of the elevator's assigned list. Returns the elevator, the
pool, the number of completions, and the recorded time triples. -/
noncomputable def processPassengers (now : ℝ) (e : Elevator) (pending : List Request) :
    Elevator × List Request × ℕ × List (ℝ × ℝ × ℝ) :=
  let idxs := (List.range pending.length).filter (fun i =>
    match pending[i]? with
    | some r => ppCond e r
    | none => false)
  let res := idxs.foldl (ppStep now) (e, pending, [], [])
  let e1 := res.1
  let pending1 := res.2.1
  let completed := res.2.2.1
  let times := res.2.2.2
  let pending2 := completed.foldl (fun pl c => spliceById pl c.id) pending1
  let e2 := completed.foldl (fun el c =>
    { el with assignedRequests := spliceId el.assignedRequests c.id }) e1
  (e2, pending2, completed.length, times)

/-- Comparator of `updateElevatorTargetsForRequests`' sort (engine
version): descending priority when priorities differ by more than 50,
otherwise descending wait time; priorities use the simulation clock.
`before a b` is `comparator(a, b) ≤ 0`. -/
noncomputable def engineTargetBefore (now : ℝ) (a b : Request) : Bool :=
  decide (if 50 < |a.getPriority now - b.getPriority now|
    then b.getPriority now ≤ a.getPriority now
    else b.getWaitTime now ≤ a.getWaitTime now)

/-- `updateElevatorTargetsForRequests(elevator)` (engine version): among
the pool requests recorded as assigned to this elevator (by id only), pick
the head of the stably sorted list and target its origin or destination
floor; the target is only written when it differs from the current one. -/
noncomputable def updateElevatorTargetsForRequests (now : ℝ)
    (pending : List Request) (e : Elevator) : Elevator :=
  let assigned := pending.filter (fun r => r.assignedElevatorId == some e.id)
  if assigned.isEmpty then e
  else
    match stableSortB (engineTargetBefore now) assigned with
    | [] => e
    | next :: _ =>
      let targetFloor := if ¬ next.isPickupComplete then next.fromFloor else next.toFloor
      if e.targetFloor == some targetFloor then e else e.setTarget targetFloor

/-- Body of the `updateElevators` loop for fleet position `i`: an elevator
with a reached target stops, opens doors, processes passengers, re-derives
its target and closes doors; with an unreached target it moves; with no
target it re-derives one. State: fleet, pool, completions, time triples. -/
noncomputable def updateOneElevator (now : ℝ)
    (st : List Elevator × List Request × ℕ × List (ℝ × ℝ × ℝ)) (i : ℕ) :
    List Elevator × List Request × ℕ × List (ℝ × ℝ × ℝ) :=
  let (elevs, pending, completedCount, times) := st
  match elevs[i]? with
  | none => st
  | some e =>
    match e.targetFloor with
    | some _ =>
      if e.hasReachedTarget then
        let e2 := e.stop.openDoors
        let res := processPassengers now e2 pending
        let e3 := res.1
        let pending3 := res.2.1
        let k := res.2.2.1
        let newTimes := res.2.2.2
        let e4 := updateElevatorTargetsForRequests now pending3 e3
        let e5 := e4.closeDoors
        (elevs.set i e5, pending3, completedCount + k, times ++ newTimes)
      else
        (elevs.set i e.move, pending, completedCount, times)
    | none =>
      (elevs.set i (updateElevatorTargetsForRequests now pending e),
        pending, completedCount, times)

/-- `updateElevators()`: the per-elevator loop over the fleet in order. -/
noncomputable def updateElevators (now : ℝ) (elevs : List Elevator)
    (pending : List Request) :
    List Elevator × List Request × ℕ × List (ℝ × ℝ × ℝ) :=
  (List.range elevs.length).foldl (updateOneElevator now) (elevs, pending, 0, [])

/-- `Math.max(...)` over a list of reals; the empty case (JavaScript
`-Infinity`) only arises when `completedRequests` is zero, where the code
never reads it. -/
noncomputable def jsMaxList (l : List ℝ) : ℝ :=
  match l with
  | [] => 0
  | x :: xs => xs.foldl max x

/-- `updateStatistics()`: averages and maximum over the completion
records (only once something completed), and the moving-elevator
utilization percentage. Division by a zero `totalElevators`
(JavaScript `NaN`) is Lean's `0`. -/
noncomputable def updateStatistics (s : SimulationEngine) : SimulationEngine :=
  let s1 :=
    if 0 < s.completedRequests then
      let totalWaitTime := s.completedRequestsWithTimes.foldl (fun acc p => acc + p.1) 0
      let totalTravelTime := s.completedRequestsWithTimes.foldl (fun acc p => acc + p.2.1) 0
      { s with
          averageWaitTime := totalWaitTime / (s.completedRequests : ℝ)
          maxWaitTime := jsMaxList (s.completedRequestsWithTimes.map (fun p => p.1))
          averageTravelTime := totalTravelTime / (s.completedRequests : ℝ) }
    else s
  let totalElevatorTime := s1.elevators.foldl
    (fun acc e => acc + if e.isMoving then (1 : ℝ) else 0) 0
  { s1 with elevatorUtilization := totalElevatorTime / (s1.totalElevators : ℝ) * 100 }

/-- `step()`: do nothing when not running; otherwise advance the clock by
`speed`, generate, assign, move/process, and update statistics. `none`
models a tick whose generator ran out of supplied draws. -/
noncomputable def step (env : TickEnv) (s : SimulationEngine) :
    Option SimulationEngine :=
  if s.isRunning = false then some s
  else
    let s1 := { s with currentTime := s.currentTime + s.speed }
    match generateRequests env s1 with
    | none => none
    | some s2 =>
      let s3 := processRequests env.wallNow env.isMorningRushWall s2
      let res := updateElevators s3.currentTime s3.elevators s3.pendingRequests
      let s4 := { s3 with
        elevators := res.1
        pendingRequests := res.2.1
        completedRequests := s3.completedRequests + res.2.2.1
        completedRequestsWithTimes := s3.completedRequestsWithTimes ++ res.2.2.2 }
      some (updateStatistics s4)

/-- `addManualRequest(fromFloor, toFloor)`: push a manual request stamped
with the current simulation time; no validation of the floors. -/
def addManualRequest (id : String) (fromFloor toFloor : ℤ)
    (s : SimulationEngine) : SimulationEngine :=
  let r := { Request.mk0 id fromFloor toFloor s.currentTime with isManual := true }
  { s with
      pendingRequests := s.pendingRequests ++ [r]
      totalRequests := s.totalRequests + 1 }

/-- `addLongWaitingRequest(fromFloor, toFloor)`: like a manual request but
backdated 45 seconds. -/
def addLongWaitingRequest (id : String) (fromFloor toFloor : ℤ)
    (s : SimulationEngine) : SimulationEngine :=
  let r := { Request.mk0 id fromFloor toFloor (s.currentTime - 45) with isManual := true }
  { s with
      pendingRequests := s.pendingRequests ++ [r]
      totalRequests := s.totalRequests + 1 }

/-- `addManualElevatorRequest(elevatorId, fromFloor, toFloor)`: create a
manual request pointed at the given elevator id; when that elevator
exists, mark the request assigned and run the scheduler's
`assignRequest` (whose target update sees the scheduler's pending view,
which does not yet contain the new request — it is pushed afterwards);
when it does not exist, the request enters the pool unassigned. -/
noncomputable def addManualElevatorRequest (wallNow : ℝ) (id : String)
    (elevatorId fromFloor toFloor : ℤ) (s : SimulationEngine) : SimulationEngine :=
  let r0 := { Request.mk0 id fromFloor toFloor s.currentTime with
    isManual := true, assignedElevatorId := some elevatorId }
  match s.elevators.findIdx? (fun e => e.id == elevatorId) with
  | some j =>
    match s.elevators[j]? with
    | some e =>
      let r1 := { r0 with isAssigned := true, assignedElevatorId := some e.id }
      let e1 := { e with assignedRequests := e.assignedRequests ++ [r1.id] }
      let e2 := Scheduler.schedUpdateElevatorTarget wallNow (schedView s) e1
      { s with
          elevators := s.elevators.set j e2
          pendingRequests := s.pendingRequests ++ [r1]
          totalRequests := s.totalRequests + 1 }
    | none =>
      { s with
          pendingRequests := s.pendingRequests ++ [r0]
          totalRequests := s.totalRequests + 1 }
  | none =>
    { s with
        pendingRequests := s.pendingRequests ++ [r0]
        totalRequests := s.totalRequests + 1 }

end SimulationEngine

/-- States of the engine reachable from construction through any sequence
of external commands and ticks. -/
inductive Reachable : SimulationEngine → Prop where
  | init (totalFloors : ℤ) (totalElevators : ℕ) (hour0 : ℤ) :
      Reachable (SimulationEngine.mkEngine totalFloors totalElevators hour0)
  | step {s s2 : SimulationEngine} (env : TickEnv) :
      Reachable s → SimulationEngine.step env s = some s2 → Reachable s2
  | start {s : SimulationEngine} : Reachable s → Reachable (SimulationEngine.start s)
  | stopEngine {s : SimulationEngine} : Reachable s → Reachable (SimulationEngine.stopEngine s)
  | reset {s : SimulationEngine} : Reachable s → Reachable (SimulationEngine.reset s)
  | setSpeed {s : SimulationEngine} (speed : ℝ) :
      Reachable s → Reachable (SimulationEngine.setSpeed speed s)
  | setRequestFrequency {s : SimulationEngine} (frequency : ℝ) :
      Reachable s → Reachable (SimulationEngine.setRequestFrequency frequency s)
  | startMorningRush {s : SimulationEngine} :
      Reachable s → Reachable (SimulationEngine.startMorningRush s)
  | startEveningRush {s : SimulationEngine} :
      Reachable s → Reachable (SimulationEngine.startEveningRush s)
  | endRushHour {s : SimulationEngine} :
      Reachable s → Reachable (SimulationEngine.endRushHour s)
  | addManualRequest {s : SimulationEngine} (id : String) (fromFloor toFloor : ℤ) :
      Reachable s → Reachable (SimulationEngine.addManualRequest id fromFloor toFloor s)
  | addLongWaitingRequest {s : SimulationEngine} (id : String) (fromFloor toFloor : ℤ) :
      Reachable s → Reachable (SimulationEngine.addLongWaitingRequest id fromFloor toFloor s)
  | addManualElevatorRequest {s : SimulationEngine} (wallNow : ℝ) (id : String)
      (elevatorId fromFloor toFloor : ℤ) :
      Reachable s →
      Reachable (SimulationEngine.addManualElevatorRequest wallNow id elevatorId
        fromFloor toFloor s)

/-- C10: when the simulation is not running, `step()` returns immediately
and the entire engine state — clock, pool, fleet, statistics, everything —
is unchanged. -/
theorem step_not_running_frame (env : TickEnv) (s : SimulationEngine)
    (h : s.isRunning = false) : SimulationEngine.step env s = some s := by
  unfold SimulationEngine.step
  rw [if_pos h]

/-- C10 witness: a stopped freshly constructed engine is unchanged by a
tick. -/
theorem step_not_running_frame_witness :
    SimulationEngine.step ⟨0, false, "r", []⟩ (SimulationEngine.mkEngine 20 4 0) =
      some (SimulationEngine.mkEngine 20 4 0) :=
  step_not_running_frame ⟨0, false, "r", []⟩ (SimulationEngine.mkEngine 20 4 0) rfl

/-- The re-roll loop never returns the floor it avoids. -/
theorem rerollFloor_ne {F avoid : ℤ} {l : List ℚ} {t : ℤ}
    (h : SimulationEngine.rerollFloor F avoid l = some t) : t ≠ avoid := by
  induction l with
  | nil => simp [SimulationEngine.rerollFloor] at h
  | cons u us ih =>
    rw [SimulationEngine.rerollFloor] at h
    by_cases hc : SimulationEngine.drawFloor F u = avoid
    · rw [if_pos hc] at h
      exact ih h
    · rw [if_neg hc] at h
      obtain rfl : SimulationEngine.drawFloor F u = t := Option.some.inj h
      exact hc

/-- C8 counterexample: an injected request with origin equal to destination
is not rejected — `addManualRequest(3, 3)` on a fresh engine constructs the
request and places it in the pool, with the total counter bumped. -/
theorem injected_same_floor_accepted_counterexample :
    ((SimulationEngine.addManualRequest "m" 3 3
        (SimulationEngine.mkEngine 20 4 0)).pendingRequests.map
      (fun r => (r.fromFloor, r.toFloor)) = [((3 : ℤ), (3 : ℤ))]) ∧
    (SimulationEngine.addManualRequest "m" 3 3
        (SimulationEngine.mkEngine 20 4 0)).totalRequests = 1 := by
  constructor <;> rfl

/-- C8 (amended): every generator path (normal, morning rush, evening
rush) produces a request with distinct origin and destination (given at
least one floor and `Math.random()` draws in `[0,1)`); but an injected
request with origin equal to destination is not rejected at the injection
boundary — `addManualRequest` performs no validation and places it in the
pool. -/
theorem generator_distinct_floors_and_injection_unvalidated
    (F : ℤ) (isRush : Bool) (rtype : RushType) (now : ℝ) (id : String)
    (draws : List ℚ) (hF : 1 ≤ F) (hdraws : ∀ u ∈ draws, 0 ≤ u) :
    (∀ r, SimulationEngine.generateRandomRequest F isRush rtype now id draws =
        some r → ¬ r.fromFloor = r.toFloor) ∧
    (∀ (s : SimulationEngine) (id2 : String) (f : ℤ),
      ∃ r, (SimulationEngine.addManualRequest id2 f f s).pendingRequests =
          s.pendingRequests ++ [r] ∧
        r.fromFloor = f ∧ r.toFloor = f ∧
        (SimulationEngine.addManualRequest id2 f f s).totalRequests =
          s.totalRequests + 1) := by
  constructor
  · intro r h
    unfold SimulationEngine.generateRandomRequest at h
    by_cases hrush : isRush = true
    · rw [if_pos hrush] at h
      unfold SimulationEngine.generateRushHourRequest at h
      cases draws with
      | nil => exact absurd h (by simp)
      | cons u0 rest =>
        have hu0 : (0 : ℚ) ≤ u0 := hdraws u0 (List.mem_cons_self u0 rest)
        cases rtype with
        | morning =>
          simp only at h
          by_cases hlob : u0 < 7/10
          · rw [if_pos hlob] at h
            cases rest with
            | nil => exact absurd h (by simp)
            | cons u1 rest2 =>
              have hu1 : (0 : ℚ) ≤ u1 :=
                hdraws u1 (List.mem_cons_of_mem u0 (List.mem_cons_self u1 rest2))
              obtain rfl : Request.mk0 id 1 (⌊u1 * ((F : ℚ) - 1)⌋ + 2) now = r :=
                Option.some.inj h
              have hfl : (0 : ℤ) ≤ ⌊u1 * ((F : ℚ) - 1)⌋ := by
                apply Int.floor_nonneg.mpr
                have hF1 : (0 : ℚ) ≤ (F : ℚ) - 1 := by
                  have : (1 : ℚ) ≤ (F : ℚ) := by exact_mod_cast hF
                  linarith
                exact mul_nonneg hu1 hF1
              simp only [Request.mk0]
              omega
          · rw [if_neg hlob] at h
            cases rest with
            | nil => exact absurd h (by simp)
            | cons u1 rest2 =>
              obtain ⟨t, ht, hr⟩ := Option.map_eq_some'.mp h
              obtain rfl := hr.symm
              simpa [Request.mk0] using (rerollFloor_ne ht).symm
        | evening =>
          simp only at h
          by_cases hlob : u0 < 7/10
          · rw [if_pos hlob] at h
            cases rest with
            | nil => exact absurd h (by simp)
            | cons u1 rest2 =>
              have hu1 : (0 : ℚ) ≤ u1 :=
                hdraws u1 (List.mem_cons_of_mem u0 (List.mem_cons_self u1 rest2))
              obtain rfl : Request.mk0 id (⌊u1 * ((F : ℚ) - 1)⌋ + 2) 1 now = r :=
                Option.some.inj h
              have hfl : (0 : ℤ) ≤ ⌊u1 * ((F : ℚ) - 1)⌋ := by
                apply Int.floor_nonneg.mpr
                have hF1 : (0 : ℚ) ≤ (F : ℚ) - 1 := by
                  have : (1 : ℚ) ≤ (F : ℚ) := by exact_mod_cast hF
                  linarith
                exact mul_nonneg hu1 hF1
              simp only [Request.mk0]
              omega
          · rw [if_neg hlob] at h
            cases rest with
            | nil => exact absurd h (by simp)
            | cons u1 rest2 =>
              obtain ⟨t, ht, hr⟩ := Option.map_eq_some'.mp h
              obtain rfl := hr.symm
              simpa [Request.mk0] using rerollFloor_ne ht
        | normal =>
          simp only at h
          obtain ⟨t, ht, hr⟩ := Option.map_eq_some'.mp h
          obtain rfl := hr.symm
          simpa [Request.mk0] using (rerollFloor_ne ht).symm
    · rw [if_neg hrush] at h
      cases draws with
      | nil => exact absurd h (by simp)
      | cons u1 rest =>
        obtain ⟨t, ht, hr⟩ := Option.map_eq_some'.mp h
        obtain rfl := hr.symm
        simpa [Request.mk0] using (rerollFloor_ne ht).symm
  · intro s id2 f
    exact ⟨{ Request.mk0 id2 f f s.currentTime with isManual := true },
      rfl, rfl, rfl, rfl⟩

/-- C8 witness: the generator theorem applied to a concrete evening-rush
draw list in a 20-floor building. -/
theorem generator_distinct_floors_witness :
    (∀ r, SimulationEngine.generateRandomRequest 20 true RushType.evening 0 "g"
        [1/2, 1/4] = some r → ¬ r.fromFloor = r.toFloor) ∧
    (∀ (s : SimulationEngine) (id2 : String) (f : ℤ),
      ∃ r, (SimulationEngine.addManualRequest id2 f f s).pendingRequests =
          s.pendingRequests ++ [r] ∧
        r.fromFloor = f ∧ r.toFloor = f ∧
        (SimulationEngine.addManualRequest id2 f f s).totalRequests =
          s.totalRequests + 1) :=
  generator_distinct_floors_and_injection_unvalidated 20 true RushType.evening 0 "g"
    [1/2, 1/4] (by norm_num) (by
      intro u hu
      rcases List.mem_cons.mp hu with rfl | hu2
      · norm_num
      · rcases List.mem_cons.mp hu2 with rfl | hu3
        · norm_num
        · exact absurd hu3 (List.not_mem_nil u))

/-- Replacing a filtered-out list entry by another filtered-out value does
not change the filter result. -/
theorem filter_set_of_false {p : Request → Bool} :
    ∀ (l : List Request) (i : ℕ) (r a : Request), l[i]? = some r →
      p r = false → p a = false → (l.set i a).filter p = l.filter p := by
  intro l
  induction l with
  | nil => intro i r a h _ _; simp at h
  | cons x xs ih =>
    intro i r a h hr ha
    cases i with
    | zero =>
      obtain rfl : x = r := by simpa using h
      simp [List.filter_cons, hr, ha]
    | succ n =>
      simp only [List.getElem?_cons_succ] at h
      simp only [List.set_cons_succ, List.filter_cons]
      rw [ih n r a h hr ha]

/-- The hybrid aggressive score reads nothing of the scored request beyond
its floors and timestamp, and ignores unassigned pool entries, so a request
carrying a stale (dangling) `assignedElevatorId` scores exactly like the
same request without it. -/
theorem hybrid_score_stale_assignment (wallNow : ℝ) (mor : Bool)
    (pending : List Request) (i : ℕ) (r : Request) (newAid : Option ℤ)
    (hi : pending[i]? = some r) (hA : r.isAssigned = false) (e : Elevator) :
    Scheduler.calculateHybridAggressiveScore wallNow mor
        (pending.set i { r with assignedElevatorId := newAid })
        { r with assignedElevatorId := newAid } e =
      Scheduler.calculateHybridAggressiveScore wallNow mor pending r e := by
  have hga : ∀ e2 : Elevator,
      Scheduler.getAssignedRequests
        (pending.set i { r with assignedElevatorId := newAid }) e2 =
        Scheduler.getAssignedRequests pending e2 := by
    intro e2
    exact filter_set_of_false pending i r _ hi (by simp [hA]) (by simp [hA])
  unfold Scheduler.calculateHybridAggressiveScore Scheduler.calculateRouteEfficiency
  rw [hga]
  rfl

/-- `selectBest` depends only on the scores of the listed elevators. -/
theorem selectBest_congr {f g : Elevator → ℝ} : ∀ {l : List Elevator},
    (∀ x ∈ l, f x = g x) → Scheduler.selectBest f l = Scheduler.selectBest g l := by
  intro l
  induction l with
  | nil => intro _; rfl
  | cons e rest ih =>
    intro h
    have hrest : Scheduler.selectBest f rest = Scheduler.selectBest g rest :=
      ih (fun x hx => h x (List.mem_cons_of_mem e hx))
    cases hr : Scheduler.selectBest g rest with
    | none =>
      rw [Scheduler.selectBest_cons_of_none (hrest.trans hr),
        Scheduler.selectBest_cons_of_none hr]
    | some c =>
      have hc : c ∈ rest := (Scheduler.selectBest_mem_max hr).1
      rw [Scheduler.selectBest_cons_of_some (hrest.trans hr),
        Scheduler.selectBest_cons_of_some hr,
        h e (List.mem_cons_self e rest), h c (List.mem_cons_of_mem e hc)]

/-- `findBestElevator` depends on the pool and request only through the
scores. -/
theorem findBestElevator_score_congr (wallNow : ℝ) (mor : Bool)
    (vp1 vp2 : List Request) (r1 r2 : Request) (elevs : List Elevator)
    (hsc : ∀ e, Scheduler.calculateHybridAggressiveScore wallNow mor vp1 r1 e =
      Scheduler.calculateHybridAggressiveScore wallNow mor vp2 r2 e) :
    Scheduler.findBestElevator wallNow mor vp1 r1 elevs =
      Scheduler.findBestElevator wallNow mor vp2 r2 elevs := by
  unfold Scheduler.findBestElevator
  by_cases h1 : elevs.isEmpty
  · rw [if_pos h1, if_pos h1]
  · rw [if_neg h1, if_neg h1]
    by_cases h2 : (elevs.filter Elevator.hasCapacity).isEmpty
    · rw [if_pos h2, if_pos h2]
    · rw [if_neg h2, if_neg h2]
      exact selectBest_congr (fun x _ => hsc x)


/-- C9: a manual injection naming an elevator id not present in the fleet
does not fail the request: it enters the pool unassigned (fleet and clock
untouched, total counter bumped); and when the assignment loop later
reaches it, the dangling id falls through to the normal scoring path —
`findBestElevator` — with exactly the result an ordinary unassigned
request (no stale id) would get. -/
theorem manual_request_unknown_elevator_fallback
    (s : SimulationEngine) (wallNow : ℝ) (id : String)
    (eid fromFloor toFloor : ℤ)
    (heid : ∀ e ∈ s.elevators, e.id ≠ eid) :
    ((SimulationEngine.addManualElevatorRequest wallNow id eid fromFloor toFloor
        s).pendingRequests =
      s.pendingRequests ++
        [{ Request.mk0 id fromFloor toFloor s.currentTime with
            isManual := true, assignedElevatorId := some eid }] ∧
      (SimulationEngine.addManualElevatorRequest wallNow id eid fromFloor toFloor
        s).elevators = s.elevators ∧
      (SimulationEngine.addManualElevatorRequest wallNow id eid fromFloor toFloor
        s).totalRequests = s.totalRequests + 1 ∧
      ({ Request.mk0 id fromFloor toFloor s.currentTime with
          isManual := true, assignedElevatorId := some eid } : Request).isAssigned
        = false) ∧
    (∀ (mor : Bool) (i : ℕ) (r : Request),
      s.pendingRequests[i]? = some r → r.isAssigned = false →
      r.assignedElevatorId = some eid →
      (SimulationEngine.processOneRequest wallNow mor s i =
        (match Scheduler.findBestElevator wallNow mor s.pendingRequests r
            s.elevators with
         | some best =>
           match s.elevators.findIdx? (fun e => e == best) with
           | some j =>
             SimulationEngine.assignToElevator wallNow { s with schedInit := true }
               i r j best
           | none => { s with schedInit := true }
         | none => { s with schedInit := true }) ∧
      Scheduler.findBestElevator wallNow mor
          (s.pendingRequests.set i { r with assignedElevatorId := none })
          { r with assignedElevatorId := none } s.elevators =
        Scheduler.findBestElevator wallNow mor s.pendingRequests r s.elevators)) := by
  have hfind : s.elevators.findIdx? (fun e => e.id == eid) = none :=
    List.findIdx?_eq_none_iff.mpr (fun e he => by
      simpa using heid e he)
  constructor
  · unfold SimulationEngine.addManualElevatorRequest
    rw [hfind]
    exact ⟨rfl, rfl, rfl, rfl⟩
  · intro mor i r hi hunassigned haid
    constructor
    · unfold SimulationEngine.processOneRequest
      rw [hi]
      simp only [hunassigned, Bool.false_eq_true, if_false, haid, hfind]
    · exact findBestElevator_score_congr wallNow mor _ _ _ _ s.elevators
        (hybrid_score_stale_assignment wallNow mor s.pendingRequests i r none hi
          hunassigned)

/-- C9 witness: injecting `elevatorId = 99` into a fresh 4-elevator engine
(ids 1..4) bumps the total counter and leaves the request unassigned. -/
theorem manual_request_unknown_elevator_fallback_witness :
    (SimulationEngine.addManualElevatorRequest 0 "m" 99 2 5
        (SimulationEngine.mkEngine 20 4 0)).totalRequests =
      (SimulationEngine.mkEngine 20 4 0).totalRequests + 1 ∧
    ({ Request.mk0 "m" 2 5 (SimulationEngine.mkEngine 20 4 0).currentTime with
        isManual := true, assignedElevatorId := some 99 } : Request).isAssigned =
      false :=
  ⟨(manual_request_unknown_elevator_fallback (SimulationEngine.mkEngine 20 4 0)
      0 "m" 99 2 5 (by decide)).1.2.2.1,
    (manual_request_unknown_elevator_fallback (SimulationEngine.mkEngine 20 4 0)
      0 "m" 99 2 5 (by decide)).1.2.2.2⟩

/-- The capacity invariant of one elevator. -/
def ElevInv (e : Elevator) : Prop :=
  0 ≤ e.passengerCount ∧ e.passengerCount ≤ e.maxCapacity

/-- The capacity invariant over a fleet. -/
def FleetInv (l : List Elevator) : Prop :=
  ∀ e ∈ l, ElevInv e

theorem ElevInv_setTarget {e : Elevator} (h : ElevInv e) (t : ℤ) :
    ElevInv (e.setTarget t) := h

theorem ElevInv_stop {e : Elevator} (h : ElevInv e) : ElevInv e.stop := h

theorem ElevInv_openDoors {e : Elevator} (h : ElevInv e) : ElevInv e.openDoors := h

theorem ElevInv_closeDoors {e : Elevator} (h : ElevInv e) : ElevInv e.closeDoors := h

theorem ElevInv_move {e : Elevator} (h : ElevInv e) : ElevInv e.move := by
  cases hd : e.direction <;> simp only [Elevator.move, hd] <;> exact h

theorem ElevInv_addPassengers {e : Elevator} (h : ElevInv e) {c : ℤ} (hc : 0 ≤ c) :
    ElevInv (e.addPassengers c).2 := by
  unfold Elevator.addPassengers
  obtain ⟨h0, h1⟩ := h
  split_ifs with hle
  · exact ⟨by simp only; omega, by simp only; omega⟩
  · exact ⟨h0, h1⟩

theorem ElevInv_removePassengers {e : Elevator} (h : ElevInv e) {c : ℤ} (hc : 0 ≤ c) :
    ElevInv (e.removePassengers c).2 := by
  unfold Elevator.removePassengers
  obtain ⟨h0, h1⟩ := h
  split_ifs with hle
  · exact ⟨by simp only; omega, by simp only; omega⟩
  · exact ⟨h0, h1⟩

theorem ElevInv_ppPickup {now : ℝ} {e : Elevator} {r : Request} (h : ElevInv e) :
    ElevInv (SimulationEngine.ppPickup now e r).1 := by
  unfold SimulationEngine.ppPickup
  split_ifs with h1 h2
  · exact ElevInv_addPassengers h (by norm_num)
  · exact h
  · exact h

theorem ElevInv_ppStep {now : ℝ}
    {st : Elevator × List Request × List Request × List (ℝ × ℝ × ℝ)} {i : ℕ}
    (h : ElevInv st.1) : ElevInv (SimulationEngine.ppStep now st i).1 := by
  obtain ⟨e, pending, completed, times⟩ := st
  unfold SimulationEngine.ppStep
  simp only
  cases hi : pending[i]? with
  | none => exact h
  | some r0 =>
    simp only
    split_ifs with hdel
    · exact ElevInv_removePassengers (ElevInv_ppPickup h) (by norm_num)
    · exact ElevInv_ppPickup h

theorem ElevInv_ppFold {now : ℝ} :
    ∀ (idxs : List ℕ) (st : Elevator × List Request × List Request × List (ℝ × ℝ × ℝ)),
      ElevInv st.1 → ElevInv ((idxs.foldl (SimulationEngine.ppStep now) st).1) := by
  intro idxs
  induction idxs with
  | nil => intro st h; exact h
  | cons i rest ih =>
    intro st h
    exact ih (SimulationEngine.ppStep now st i) (ElevInv_ppStep h)

theorem ElevInv_cleanupFold :
    ∀ (completed : List Request) (e : Elevator), ElevInv e →
      ElevInv (completed.foldl (fun el c =>
        { el with assignedRequests :=
            SimulationEngine.spliceId el.assignedRequests c.id }) e) := by
  intro completed
  induction completed with
  | nil => intro e h; exact h
  | cons c cs ih => intro e h; exact ih _ h

theorem ElevInv_processPassengers {now : ℝ} {e : Elevator} {pending : List Request}
    (h : ElevInv e) : ElevInv (SimulationEngine.processPassengers now e pending).1 := by
  unfold SimulationEngine.processPassengers
  simp only []
  exact ElevInv_cleanupFold _ _ (ElevInv_ppFold _ _ h)

theorem ElevInv_updateTargets {now : ℝ} {pending : List Request} {e : Elevator}
    (h : ElevInv e) :
    ElevInv (SimulationEngine.updateElevatorTargetsForRequests now pending e) := by
  unfold SimulationEngine.updateElevatorTargetsForRequests
  dsimp only
  repeat' first
  | exact h
  | exact ElevInv_setTarget h _
  | split

theorem ElevInv_schedUpdateTarget {wallNow : ℝ} {view : List Request} {e : Elevator}
    (h : ElevInv e) :
    ElevInv (Scheduler.schedUpdateElevatorTarget wallNow view e) := by
  unfold Scheduler.schedUpdateElevatorTarget
  dsimp only
  repeat' first
  | exact h
  | exact ElevInv_setTarget h _
  | split

theorem FleetInv_set {l : List Elevator} {i : ℕ} {a : Elevator}
    (hl : FleetInv l) (ha : ElevInv a) : FleetInv (l.set i a) := by
  intro e he
  rcases List.mem_or_eq_of_mem_set he with h1 | rfl
  · exact hl e h1
  · exact ha

theorem FleetInv_modifyAt {l : List Elevator} {i : ℕ} {f : Elevator → Elevator}
    (hl : FleetInv l) (hf : ∀ e, ElevInv e → ElevInv (f e)) :
    FleetInv (SimulationEngine.modifyAt l i f) := by
  unfold SimulationEngine.modifyAt
  cases hi : l[i]? with
  | none => exact hl
  | some e => exact FleetInv_set hl (hf e (hl e (List.getElem?_mem hi)))

theorem FleetInv_updateOneElevator {now : ℝ}
    {st : List Elevator × List Request × ℕ × List (ℝ × ℝ × ℝ)} {i : ℕ}
    (h : FleetInv st.1) :
    FleetInv (SimulationEngine.updateOneElevator now st i).1 := by
  obtain ⟨elevs, pending, cnt, times⟩ := st
  unfold SimulationEngine.updateOneElevator
  dsimp only at h ⊢
  split
  · exact h
  · next e heq =>
    have he : ElevInv e := h e (List.getElem?_mem heq)
    split
    · split
      · exact FleetInv_set h
          (ElevInv_closeDoors (ElevInv_updateTargets
            (ElevInv_processPassengers (ElevInv_openDoors (ElevInv_stop he)))))
      · exact FleetInv_set h (ElevInv_move he)
    · exact FleetInv_set h (ElevInv_updateTargets he)

theorem FleetInv_updateElevatorsFold {now : ℝ} :
    ∀ (idxs : List ℕ) (st : List Elevator × List Request × ℕ × List (ℝ × ℝ × ℝ)),
      FleetInv st.1 →
      FleetInv ((idxs.foldl (SimulationEngine.updateOneElevator now) st).1) := by
  intro idxs
  induction idxs with
  | nil => intro st h; exact h
  | cons i rest ih => intro st h; exact ih _ (FleetInv_updateOneElevator h)

theorem FleetInv_updateElevators {now : ℝ} {elevs : List Elevator}
    {pending : List Request} (h : FleetInv elevs) :
    FleetInv (SimulationEngine.updateElevators now elevs pending).1 :=
  FleetInv_updateElevatorsFold _ _ h

theorem FleetInv_rebalanceOne {unId : ℤ} {ovIdx unIdx : ℕ} {rid : String}
    {st : List Request × List Elevator} (h : FleetInv st.2) :
    FleetInv (SimulationEngine.rebalanceOne unId ovIdx unIdx rid st).2 := by
  unfold SimulationEngine.rebalanceOne
  repeat' first
  | exact h
  | exact FleetInv_modifyAt (FleetInv_modifyAt h (fun e he => he)) (fun e he => he)
  | split

theorem FleetInv_rebalanceFold {unId : ℤ} {ovIdx unIdx : ℕ} :
    ∀ (ids : List String) (st : List Request × List Elevator), FleetInv st.2 →
      FleetInv ((ids.foldl
        (fun st rid => SimulationEngine.rebalanceOne unId ovIdx unIdx rid st) st).2) := by
  intro ids
  induction ids with
  | nil => intro st h; exact h
  | cons x xs ih => intro st h; exact ih _ (FleetInv_rebalanceOne h)

theorem FleetInv_emergencyRebalancing {s : SimulationEngine}
    (h : FleetInv s.elevators) :
    FleetInv (SimulationEngine.emergencyRebalancing s).elevators := by
  unfold SimulationEngine.emergencyRebalancing
  dsimp only
  repeat' first
  | exact h
  | exact FleetInv_rebalanceFold _ _ h
  | split

theorem FleetInv_predictivePositioning {s : SimulationEngine}
    (h : FleetInv s.elevators) :
    FleetInv (SimulationEngine.predictivePositioning s).elevators := by
  intro e he
  unfold SimulationEngine.predictivePositioning at he
  dsimp only at he
  obtain ⟨x, hx, rfl⟩ := List.mem_map.mp he
  have hxinv := h x hx
  repeat' first
  | exact hxinv
  | exact ElevInv_setTarget hxinv _
  | split

theorem FleetInv_assignToElevator {wallNow : ℝ} {s : SimulationEngine}
    {i : ℕ} {r : Request} {j : ℕ} {e : Elevator}
    (h : FleetInv s.elevators) (he : ElevInv e) :
    FleetInv (SimulationEngine.assignToElevator wallNow s i r j e).elevators := by
  unfold SimulationEngine.assignToElevator
  dsimp only
  exact FleetInv_set h (ElevInv_schedUpdateTarget he)

theorem findBestElevator_mem {wallNow : ℝ} {mor : Bool} {vp : List Request}
    {r : Request} {elevs : List Elevator} {b : Elevator}
    (h : Scheduler.findBestElevator wallNow mor vp r elevs = some b) : b ∈ elevs := by
  unfold Scheduler.findBestElevator at h
  by_cases h1 : elevs.isEmpty
  · rw [if_pos h1] at h
    exact absurd h (by simp)
  · rw [if_neg h1] at h
    dsimp only at h
    by_cases h2 : (elevs.filter Elevator.hasCapacity).isEmpty
    · rw [if_pos h2] at h
      exact absurd h (by simp)
    · rw [if_neg h2] at h
      exact List.mem_of_mem_filter (Scheduler.selectBest_mem_max h).1

theorem FleetInv_processOneRequest {wallNow : ℝ} {mor : Bool}
    {s : SimulationEngine} {i : ℕ} (h : FleetInv s.elevators) :
    FleetInv (SimulationEngine.processOneRequest wallNow mor s i).elevators := by
  unfold SimulationEngine.processOneRequest
  dsimp only
  split
  · exact h
  · next r heq =>
    split
    · exact h
    · split
      · next s2 heq2 =>
        split at heq2
        · split at heq2
          · next j hfi =>
            obtain ⟨e, hj, rfl⟩ := Option.map_eq_some'.mp heq2
            exact FleetInv_assignToElevator h (h e (List.getElem?_mem hj))
          · exact absurd heq2 (by simp)
        · exact absurd heq2 (by simp)
      · split
        · next best hbest =>
          have hbm : best ∈ s.elevators := findBestElevator_mem hbest
          split
          · exact FleetInv_assignToElevator h (h best hbm)
          · exact h
        · exact h

theorem FleetInv_processRequestsFold {wallNow : ℝ} {mor : Bool} :
    ∀ (idxs : List ℕ) (s : SimulationEngine), FleetInv s.elevators →
      FleetInv ((idxs.foldl (SimulationEngine.processOneRequest wallNow mor) s).elevators) := by
  intro idxs
  induction idxs with
  | nil => intro s h; exact h
  | cons i rest ih => intro s h; exact ih _ (FleetInv_processOneRequest h)

theorem sortRequestsByPriority_elevators (s : SimulationEngine) :
    (SimulationEngine.sortRequestsByPriority s).elevators = s.elevators := rfl

theorem FleetInv_processRequests {wallNow : ℝ} {mor : Bool} {s : SimulationEngine}
    (h : FleetInv s.elevators) :
    FleetInv (SimulationEngine.processRequests wallNow mor s).elevators := by
  unfold SimulationEngine.processRequests
  dsimp only
  apply FleetInv_processRequestsFold
  have h2 := FleetInv_predictivePositioning (FleetInv_emergencyRebalancing h)
  split
  · exact h2
  · exact h2

theorem generateRequests_elevators {env : TickEnv} {s s2 : SimulationEngine}
    (h : SimulationEngine.generateRequests env s = some s2) :
    s2.elevators = s.elevators := by
  unfold SimulationEngine.generateRequests at h
  split at h
  · split at h
    · obtain rfl := Option.some.inj h
      rfl
    · exact absurd h (by simp)
  · obtain rfl := Option.some.inj h
    rfl

theorem updateStatistics_elevators (s : SimulationEngine) :
    (SimulationEngine.updateStatistics s).elevators = s.elevators := by
  unfold SimulationEngine.updateStatistics
  dsimp only
  split <;> rfl

theorem FleetInv_step {env : TickEnv} {s s2 : SimulationEngine}
    (hst : SimulationEngine.step env s = some s2) (h : FleetInv s.elevators) :
    FleetInv s2.elevators := by
  unfold SimulationEngine.step at hst
  split at hst
  · obtain rfl := Option.some.inj hst
    exact h
  · dsimp only at hst
    cases hg : SimulationEngine.generateRequests env
        { s with currentTime := s.currentTime + s.speed } with
    | none => rw [hg] at hst; exact absurd hst (by simp)
    | some sg =>
      rw [hg] at hst
      dsimp only at hst
      obtain rfl := Option.some.inj hst
      rw [updateStatistics_elevators]
      dsimp only
      apply FleetInv_updateElevators
      apply FleetInv_processRequests
      rw [generateRequests_elevators hg]
      exact h

theorem FleetInv_createElevators (F : ℤ) (N : ℕ) :
    FleetInv (SimulationEngine.createElevators F N) := by
  intro e he
  obtain ⟨i, hi, rfl⟩ := List.mem_map.mp he
  exact ⟨le_refl 0, by norm_num [Elevator.mk0]⟩

theorem FleetInv_addManualElevatorRequest {wallNow : ℝ} {id : String}
    {eid f t : ℤ} {s : SimulationEngine} (h : FleetInv s.elevators) :
    FleetInv (SimulationEngine.addManualElevatorRequest wallNow id eid f t s).elevators := by
  unfold SimulationEngine.addManualElevatorRequest
  dsimp only
  split
  · next j hfi =>
    split
    · next e hj =>
      exact FleetInv_set h (ElevInv_schedUpdateTarget (h e (List.getElem?_mem hj)))
    · exact h
  · exact h

/-- C2: in every engine state reachable from construction through any
sequence of ticks and external commands, every elevator satisfies
`0 ≤ passengerCount ≤ maxCapacity` (pickups are guarded by `hasCapacity`
and `addPassengers`, deliveries by `removePassengers`). -/
theorem capacity_invariant (s : SimulationEngine) (hs : Reachable s) :
    ∀ e ∈ s.elevators, 0 ≤ e.passengerCount ∧ e.passengerCount ≤ e.maxCapacity := by
  induction hs with
  | init F N h0 => exact FleetInv_createElevators F N
  | step env hr hst ih => exact FleetInv_step hst ih
  | start hr ih => exact ih
  | stopEngine hr ih => exact ih
  | reset hr ih => exact FleetInv_createElevators _ _
  | setSpeed speed hr ih => exact ih
  | setRequestFrequency f hr ih => exact ih
  | startMorningRush hr ih => exact ih
  | startEveningRush hr ih => exact ih
  | endRushHour hr ih => exact ih
  | addManualRequest id f t hr ih => exact ih
  | addLongWaitingRequest id f t hr ih => exact ih
  | addManualElevatorRequest w id eid f t hr ih =>
    exact FleetInv_addManualElevatorRequest ih

/-- C2 witness: the invariant holds for the first elevator of a freshly
constructed default engine. -/
theorem capacity_invariant_witness :
    0 ≤ (Elevator.mk0 1 15 1).passengerCount ∧
      (Elevator.mk0 1 15 1).passengerCount ≤ (Elevator.mk0 1 15 1).maxCapacity :=
  capacity_invariant (SimulationEngine.mkEngine 20 4 0)
    (Reachable.init 20 4 0) (Elevator.mk0 1 15 1) (by
      show Elevator.mk0 1 15 1 ∈ SimulationEngine.createElevators 20 4
      unfold SimulationEngine.createElevators
      apply List.mem_map.mpr
      refine ⟨0, by simp; exact ⟨0, by norm_num, by norm_num⟩, ?_⟩
      norm_num [Elevator.mk0])

theorem getElem?_decomp {l : List Request} {i : ℕ} {x : Request}
    (h : l[i]? = some x) (a : Request) :
    ∃ l1 l2, l = l1 ++ x :: l2 ∧ l.set i a = l1 ++ a :: l2 := by
  induction l generalizing i with
  | nil => simp at h
  | cons y ys ih =>
    cases i with
    | zero =>
      obtain rfl : y = x := by simpa using h
      exact ⟨[], ys, rfl, rfl⟩
    | succ n =>
      simp only [List.getElem?_cons_succ] at h
      obtain ⟨l1, l2, h1, h2⟩ := ih h
      exact ⟨y :: l1, l2, by rw [h1]; rfl, by rw [List.set_cons_succ, h2]; rfl⟩

/-- Occurrences of an id among the delivery-complete entries of a pool. -/
def dCount (x : String) (l : List Request) : ℕ :=
  ((l.filter (fun r => r.isDeliveryComplete)).map (fun r => r.id)).count x

theorem dCount_le_idsCount (x : String) (l : List Request) :
    dCount x l ≤ (l.map (fun r => r.id)).count x :=
  List.Sublist.count_le (List.Sublist.map _ (List.filter_sublist l)) x

theorem dCount_set_same {l : List Request} {i : ℕ} {r0 r1 : Request}
    (h : l[i]? = some r0) (hid : r1.id = r0.id)
    (hdel : r1.isDeliveryComplete = r0.isDeliveryComplete) (x : String) :
    dCount x (l.set i r1) = dCount x l := by
  obtain ⟨l1, l2, he, hs⟩ := getElem?_decomp h r1
  rw [hs, he]
  unfold dCount
  cases hd : r0.isDeliveryComplete with
  | false =>
    simp [List.filter_append, List.filter_cons, hdel, hd]
  | true =>
    simp [List.filter_append, List.filter_cons, hdel, hd, hid]

theorem dCount_set_deliver {l : List Request} {i : ℕ} {r0 r2 : Request}
    (h : l[i]? = some r0) (h0 : r0.isDeliveryComplete = false)
    (h2 : r2.isDeliveryComplete = true) (hid : r2.id = r0.id) (x : String) :
    dCount x (l.set i r2) = dCount x l + [r0.id].count x := by
  obtain ⟨l1, l2, he, hs⟩ := getElem?_decomp h r2
  rw [hs, he]
  unfold dCount
  simp [List.filter_append, List.filter_cons, h0, h2, hid, List.count_append,
    List.count_cons]
  omega

theorem spliceById_ids (pl : List Request) (cid : String) :
    (SimulationEngine.spliceById pl cid).map (fun r => r.id) =
      (pl.map (fun r => r.id)).erase cid := by
  induction pl with
  | nil => rfl
  | cons r rs ih =>
    unfold SimulationEngine.spliceById
    by_cases hc : (r.id == cid) = true
    · simp [hc, List.erase_cons]
    · simp only [Bool.not_eq_true] at hc
      simp [hc, List.erase_cons, ih]

theorem spliceById_length {pl : List Request} {cid : String}
    (h : cid ∈ pl.map (fun r => r.id)) :
    (SimulationEngine.spliceById pl cid).length + 1 = pl.length := by
  have hlen := congrArg List.length (spliceById_ids pl cid)
  simp only [List.length_map] at hlen
  rw [hlen, List.length_erase_of_mem h]
  have : 1 ≤ (pl.map (fun r => r.id)).length := by
    cases hmap : pl.map (fun r => r.id) with
    | nil => rw [hmap] at h; exact absurd h (List.not_mem_nil cid)
    | cons a as => simp
  simp only [List.length_map] at this ⊢
  omega

theorem ppPickup_fields (now : ℝ) (e : Elevator) (r0 : Request) :
    (SimulationEngine.ppPickup now e r0).2.id = r0.id ∧
    (SimulationEngine.ppPickup now e r0).2.isDeliveryComplete = r0.isDeliveryComplete := by
  unfold SimulationEngine.ppPickup
  split_ifs <;> exact ⟨rfl, rfl⟩

theorem ppStep_len {now : ℝ}
    {st : Elevator × List Request × List Request × List (ℝ × ℝ × ℝ)} {i : ℕ} :
    ((SimulationEngine.ppStep now st i).2.1).length = (st.2.1).length := by
  obtain ⟨e, pending, completed, times⟩ := st
  unfold SimulationEngine.ppStep
  dsimp only
  split
  · rfl
  · next r0 heq =>
    split
    · exact List.length_set _ _ _
    · exact List.length_set _ _ _

theorem ppStep_dInv {now : ℝ}
    {st : Elevator × List Request × List Request × List (ℝ × ℝ × ℝ)} {i : ℕ}
    (h : ∀ x, ((st.2.2.1).map (fun r => r.id)).count x ≤ dCount x st.2.1) :
    ∀ x, (((SimulationEngine.ppStep now st i).2.2.1).map (fun r => r.id)).count x ≤
      dCount x ((SimulationEngine.ppStep now st i).2.1) := by
  obtain ⟨e, pending, completed, times⟩ := st
  unfold SimulationEngine.ppStep
  dsimp only at h ⊢
  split
  · exact h
  · next r0 heq =>
    split
    · next hcond =>
      intro x
      have hid1 := (ppPickup_fields now e r0).1
      have hdel1 := (ppPickup_fields now e r0).2
      have h0 : r0.isDeliveryComplete = false := by
        simp only [Bool.and_eq_true, Bool.not_eq_true'] at hcond
        rw [← hdel1]
        exact hcond.2
      have hid2 : ({ (SimulationEngine.ppPickup now e r0).2 with
          isDeliveryComplete := true, deliveryTime := some now,
          isAssigned := false, assignedElevatorId := none } : Request).id = r0.id :=
        hid1
      have hd2 : ({ (SimulationEngine.ppPickup now e r0).2 with
          isDeliveryComplete := true, deliveryTime := some now,
          isAssigned := false, assignedElevatorId := none } : Request).isDeliveryComplete
          = true := rfl
      rw [dCount_set_deliver heq h0 hd2 hid2]
      simp only [List.map_append, List.count_append]
      have hc := h x
      have : (([{ (SimulationEngine.ppPickup now e r0).2 with
          isDeliveryComplete := true, deliveryTime := some now,
          isAssigned := false, assignedElevatorId := none }].map
            (fun r => r.id)).count x) = [r0.id].count x := by
        simp [hid1]
      rw [this]
      omega
    · intro x
      have hid1 := (ppPickup_fields now e r0).1
      have hdel1 := (ppPickup_fields now e r0).2
      rw [dCount_set_same heq hid1 hdel1]
      exact h x

theorem ppFold_len {now : ℝ} :
    ∀ (idxs : List ℕ) (st : Elevator × List Request × List Request × List (ℝ × ℝ × ℝ)),
      ((idxs.foldl (SimulationEngine.ppStep now) st).2.1).length = (st.2.1).length := by
  intro idxs
  induction idxs with
  | nil => intro st; rfl
  | cons i rest ih =>
    intro st
    rw [List.foldl_cons, ih (SimulationEngine.ppStep now st i), ppStep_len]

theorem ppFold_dInv {now : ℝ} :
    ∀ (idxs : List ℕ) (st : Elevator × List Request × List Request × List (ℝ × ℝ × ℝ)),
      (∀ x, ((st.2.2.1).map (fun r => r.id)).count x ≤ dCount x st.2.1) →
      ∀ x, (((idxs.foldl (SimulationEngine.ppStep now) st).2.2.1).map
          (fun r => r.id)).count x ≤
        dCount x ((idxs.foldl (SimulationEngine.ppStep now) st).2.1) := by
  intro idxs
  induction idxs with
  | nil => intro st h; exact h
  | cons i rest ih =>
    intro st h
    exact ih (SimulationEngine.ppStep now st i) (ppStep_dInv h)

theorem cleanup_len :
    ∀ (completed pl : List Request),
      (∀ x, (completed.map (fun r => r.id)).count x ≤
        (pl.map (fun r => r.id)).count x) →
      (completed.foldl (fun pl c => SimulationEngine.spliceById pl c.id) pl).length +
        completed.length = pl.length := by
  intro completed
  induction completed with
  | nil => intro pl _; simp
  | cons c cs ih =>
    intro pl h
    have hmem : c.id ∈ pl.map (fun r => r.id) := by
      have hx := h c.id
      simp only [List.map_cons, List.count_cons, beq_self_eq_true, if_pos] at hx
      have : 0 < (pl.map (fun r => r.id)).count c.id := by omega
      exact List.count_pos_iff.mp this
    have hcount : ∀ x, (cs.map (fun r => r.id)).count x ≤
        ((SimulationEngine.spliceById pl c.id).map (fun r => r.id)).count x := by
      intro x
      rw [spliceById_ids]
      have hx := h x
      simp only [List.map_cons, List.count_cons] at hx
      by_cases hxc : x = c.id
      · subst hxc
        rw [List.count_erase_self]
        simp at hx
        omega
      · rw [List.count_erase_of_ne hxc]
        simp [Ne.symm hxc] at hx
        omega
    have hrec := ih (SimulationEngine.spliceById pl c.id) hcount
    have hlen := spliceById_length hmem
    simp only [List.foldl_cons, List.length_cons]
    omega

theorem processPassengers_len {now : ℝ} {e : Elevator} {pending : List Request} :
    ((SimulationEngine.processPassengers now e pending).2.1).length +
      (SimulationEngine.processPassengers now e pending).2.2.1 = pending.length := by
  unfold SimulationEngine.processPassengers
  dsimp only
  have hlen := @ppFold_len now
    ((List.range pending.length).filter (fun i =>
      match pending[i]? with
      | some r => SimulationEngine.ppCond e r
      | none => false)) (e, pending, [], [])
  have hinv := @ppFold_dInv now
    ((List.range pending.length).filter (fun i =>
      match pending[i]? with
      | some r => SimulationEngine.ppCond e r
      | none => false)) (e, pending, [], []) (by intro x; simp [dCount])
  have hcounts : ∀ x,
      (((List.foldl (SimulationEngine.ppStep now) (e, pending, [], [])
        ((List.range pending.length).filter (fun i =>
          match pending[i]? with
          | some r => SimulationEngine.ppCond e r
          | none => false))).2.2.1).map (fun r => r.id)).count x ≤
      (((List.foldl (SimulationEngine.ppStep now) (e, pending, [], [])
        ((List.range pending.length).filter (fun i =>
          match pending[i]? with
          | some r => SimulationEngine.ppCond e r
          | none => false))).2.1).map (fun r => r.id)).count x := by
    intro x
    exact le_trans (hinv x) (dCount_le_idsCount x _)
  have hcl := cleanup_len _ _ hcounts
  dsimp only at hlen hcl ⊢
  omega

theorem updateOneElevator_conserv {now : ℝ}
    {st : List Elevator × List Request × ℕ × List (ℝ × ℝ × ℝ)} {i : ℕ} :
    (SimulationEngine.updateOneElevator now st i).2.2.1 +
      ((SimulationEngine.updateOneElevator now st i).2.1).length =
    st.2.2.1 + (st.2.1).length := by
  obtain ⟨elevs, pending, cnt, times⟩ := st
  unfold SimulationEngine.updateOneElevator
  dsimp only
  split
  · rfl
  · next e heq =>
    split
    · split
      · dsimp only
        have := @processPassengers_len now e.stop.openDoors pending
        omega
      · rfl
    · rfl

theorem updateElevatorsFold_conserv {now : ℝ} :
    ∀ (idxs : List ℕ) (st : List Elevator × List Request × ℕ × List (ℝ × ℝ × ℝ)),
      (idxs.foldl (SimulationEngine.updateOneElevator now) st).2.2.1 +
        ((idxs.foldl (SimulationEngine.updateOneElevator now) st).2.1).length =
      st.2.2.1 + (st.2.1).length := by
  intro idxs
  induction idxs with
  | nil => intro st; rfl
  | cons i rest ih =>
    intro st
    rw [List.foldl_cons, ih (SimulationEngine.updateOneElevator now st i),
      updateOneElevator_conserv]

theorem updateElevators_conserv {now : ℝ} {elevs : List Elevator}
    {pending : List Request} :
    (SimulationEngine.updateElevators now elevs pending).2.2.1 +
      ((SimulationEngine.updateElevators now elevs pending).2.1).length =
    pending.length := by
  have h := @updateElevatorsFold_conserv now (List.range elevs.length)
    (elevs, pending, 0, [])
  unfold SimulationEngine.updateElevators
  dsimp only at h ⊢
  omega

theorem rebalanceOne_len {unId : ℤ} {ovIdx unIdx : ℕ} {rid : String}
    {st : List Request × List Elevator} :
    ((SimulationEngine.rebalanceOne unId ovIdx unIdx rid st).1).length =
      (st.1).length := by
  unfold SimulationEngine.rebalanceOne
  repeat' first
  | rfl
  | exact List.length_set _ _ _
  | split

theorem rebalanceFold_len {unId : ℤ} {ovIdx unIdx : ℕ} :
    ∀ (ids : List String) (st : List Request × List Elevator),
      ((ids.foldl
        (fun st rid => SimulationEngine.rebalanceOne unId ovIdx unIdx rid st) st).1).length =
      (st.1).length := by
  intro ids
  induction ids with
  | nil => intro st; rfl
  | cons x xs ih =>
    intro st
    rw [List.foldl_cons, ih, rebalanceOne_len]

theorem emergencyRebalancing_conserv (s : SimulationEngine) :
    (SimulationEngine.emergencyRebalancing s).totalRequests = s.totalRequests ∧
    (SimulationEngine.emergencyRebalancing s).completedRequests = s.completedRequests ∧
    ((SimulationEngine.emergencyRebalancing s).pendingRequests).length =
      s.pendingRequests.length := by
  unfold SimulationEngine.emergencyRebalancing
  dsimp only
  repeat' first
  | exact ⟨rfl, rfl, rfl⟩
  | exact ⟨rfl, rfl, rebalanceFold_len _ _⟩
  | split

theorem predictivePositioning_conserv (s : SimulationEngine) :
    (SimulationEngine.predictivePositioning s).totalRequests = s.totalRequests ∧
    (SimulationEngine.predictivePositioning s).completedRequests = s.completedRequests ∧
    (SimulationEngine.predictivePositioning s).pendingRequests = s.pendingRequests :=
  ⟨rfl, rfl, rfl⟩

theorem sortRequestsByPriority_conserv (s : SimulationEngine) :
    (SimulationEngine.sortRequestsByPriority s).totalRequests = s.totalRequests ∧
    (SimulationEngine.sortRequestsByPriority s).completedRequests = s.completedRequests ∧
    ((SimulationEngine.sortRequestsByPriority s).pendingRequests).length =
      s.pendingRequests.length :=
  ⟨rfl, rfl, stableSortB_length _ _⟩

theorem assignToElevator_conserv {wallNow : ℝ} {s : SimulationEngine} {i : ℕ}
    {r : Request} {j : ℕ} {e : Elevator} :
    (SimulationEngine.assignToElevator wallNow s i r j e).totalRequests =
      s.totalRequests ∧
    (SimulationEngine.assignToElevator wallNow s i r j e).completedRequests =
      s.completedRequests ∧
    ((SimulationEngine.assignToElevator wallNow s i r j e).pendingRequests).length =
      s.pendingRequests.length :=
  ⟨rfl, rfl, List.length_set _ _ _⟩

theorem processOneRequest_conserv {wallNow : ℝ} {mor : Bool}
    {s : SimulationEngine} {i : ℕ} :
    (SimulationEngine.processOneRequest wallNow mor s i).totalRequests =
      s.totalRequests ∧
    (SimulationEngine.processOneRequest wallNow mor s i).completedRequests =
      s.completedRequests ∧
    ((SimulationEngine.processOneRequest wallNow mor s i).pendingRequests).length =
      s.pendingRequests.length := by
  unfold SimulationEngine.processOneRequest
  dsimp only
  split
  · exact ⟨rfl, rfl, rfl⟩
  · next r heq =>
    split
    · exact ⟨rfl, rfl, rfl⟩
    · split
      · next s2 heq2 =>
        split at heq2
        · split at heq2
          · next j hfi =>
            obtain ⟨e, hj, rfl⟩ := Option.map_eq_some'.mp heq2
            exact assignToElevator_conserv
          · exact absurd heq2 (by simp)
        · exact absurd heq2 (by simp)
      · split
        · next best hbest =>
          split
          · exact assignToElevator_conserv
          · exact ⟨rfl, rfl, rfl⟩
        · exact ⟨rfl, rfl, rfl⟩

theorem processRequestsFold_conserv {wallNow : ℝ} {mor : Bool} :
    ∀ (idxs : List ℕ) (s : SimulationEngine),
      ((idxs.foldl (SimulationEngine.processOneRequest wallNow mor) s)).totalRequests =
        s.totalRequests ∧
      ((idxs.foldl (SimulationEngine.processOneRequest wallNow mor) s)).completedRequests =
        s.completedRequests ∧
      (((idxs.foldl (SimulationEngine.processOneRequest wallNow mor) s)).pendingRequests).length =
        s.pendingRequests.length := by
  intro idxs
  induction idxs with
  | nil => intro s; exact ⟨rfl, rfl, rfl⟩
  | cons i rest ih =>
    intro s
    obtain ⟨h1, h2, h3⟩ := ih (SimulationEngine.processOneRequest wallNow mor s i)
    obtain ⟨g1, g2, g3⟩ := @processOneRequest_conserv wallNow mor s i
    rw [List.foldl_cons]
    exact ⟨h1.trans g1, h2.trans g2, h3.trans g3⟩

theorem processRequests_conserv {wallNow : ℝ} {mor : Bool} {s : SimulationEngine} :
    (SimulationEngine.processRequests wallNow mor s).totalRequests = s.totalRequests ∧
    (SimulationEngine.processRequests wallNow mor s).completedRequests =
      s.completedRequests ∧
    ((SimulationEngine.processRequests wallNow mor s).pendingRequests).length =
      s.pendingRequests.length := by
  unfold SimulationEngine.processRequests
  dsimp only
  obtain ⟨e1, e2, e3⟩ := emergencyRebalancing_conserv s
  obtain ⟨p1, p2, p3⟩ := predictivePositioning_conserv
    (SimulationEngine.emergencyRebalancing s)
  split
  · next hlen =>
    obtain ⟨q1, q2, q3⟩ := sortRequestsByPriority_conserv
      (SimulationEngine.predictivePositioning (SimulationEngine.emergencyRebalancing s))
    obtain ⟨f1, f2, f3⟩ := @processRequestsFold_conserv wallNow mor
      (List.range (SimulationEngine.sortRequestsByPriority
        (SimulationEngine.predictivePositioning
          (SimulationEngine.emergencyRebalancing s))).pendingRequests.length)
      (SimulationEngine.sortRequestsByPriority
        (SimulationEngine.predictivePositioning
          (SimulationEngine.emergencyRebalancing s)))
    refine ⟨?_, ?_, ?_⟩
    · rw [f1, q1, p1, e1]
    · rw [f2, q2, p2, e2]
    · rw [f3, q3, p3, e3]
  · next hlen =>
    obtain ⟨f1, f2, f3⟩ := @processRequestsFold_conserv wallNow mor
      (List.range (SimulationEngine.predictivePositioning
        (SimulationEngine.emergencyRebalancing s)).pendingRequests.length)
      (SimulationEngine.predictivePositioning (SimulationEngine.emergencyRebalancing s))
    refine ⟨?_, ?_, ?_⟩
    · rw [f1, p1, e1]
    · rw [f2, p2, e2]
    · rw [f3, p3, e3]

theorem generateRequests_conserv {env : TickEnv} {s s2 : SimulationEngine}
    (h : SimulationEngine.generateRequests env s = some s2) :
    s2.totalRequests + s.pendingRequests.length =
      s.totalRequests + s2.pendingRequests.length ∧
    s2.completedRequests = s.completedRequests := by
  unfold SimulationEngine.generateRequests at h
  split at h
  · split at h
    · obtain rfl := Option.some.inj h
      constructor
      · simp only [List.length_append, List.length_cons, List.length_nil]
        omega
      · rfl
    · exact absurd h (by simp)
  · obtain rfl := Option.some.inj h
    exact ⟨rfl, rfl⟩

theorem updateStatistics_conserv (s : SimulationEngine) :
    (SimulationEngine.updateStatistics s).totalRequests = s.totalRequests ∧
    (SimulationEngine.updateStatistics s).completedRequests = s.completedRequests ∧
    (SimulationEngine.updateStatistics s).pendingRequests = s.pendingRequests := by
  unfold SimulationEngine.updateStatistics
  dsimp only
  split <;> exact ⟨rfl, rfl, rfl⟩

theorem step_conserv {env : TickEnv} {s s2 : SimulationEngine}
    (hst : SimulationEngine.step env s = some s2)
    (h : s.totalRequests = s.completedRequests + s.pendingRequests.length) :
    s2.totalRequests = s2.completedRequests + s2.pendingRequests.length := by
  unfold SimulationEngine.step at hst
  split at hst
  · obtain rfl := Option.some.inj hst
    exact h
  · dsimp only at hst
    cases hg : SimulationEngine.generateRequests env
        { s with currentTime := s.currentTime + s.speed } with
    | none => rw [hg] at hst; exact absurd hst (by simp)
    | some sg =>
      rw [hg] at hst
      dsimp only at hst
      obtain rfl := Option.some.inj hst
      obtain ⟨g1, g2⟩ := generateRequests_conserv hg
      obtain ⟨p1, p2, p3⟩ := @processRequests_conserv
        env.wallNow env.isMorningRushWall sg
      have hu := @updateElevators_conserv
        (SimulationEngine.processRequests env.wallNow env.isMorningRushWall
          sg).currentTime
        (SimulationEngine.processRequests env.wallNow env.isMorningRushWall
          sg).elevators
        (SimulationEngine.processRequests env.wallNow env.isMorningRushWall
          sg).pendingRequests
      obtain ⟨u1, u2, u3⟩ := updateStatistics_conserv
        { SimulationEngine.processRequests env.wallNow env.isMorningRushWall sg with
            elevators := (SimulationEngine.updateElevators
              (SimulationEngine.processRequests env.wallNow env.isMorningRushWall
                sg).currentTime
              (SimulationEngine.processRequests env.wallNow env.isMorningRushWall
                sg).elevators
              (SimulationEngine.processRequests env.wallNow env.isMorningRushWall
                sg).pendingRequests).1
            pendingRequests := (SimulationEngine.updateElevators
              (SimulationEngine.processRequests env.wallNow env.isMorningRushWall
                sg).currentTime
              (SimulationEngine.processRequests env.wallNow env.isMorningRushWall
                sg).elevators
              (SimulationEngine.processRequests env.wallNow env.isMorningRushWall
                sg).pendingRequests).2.1
            completedRequests := (SimulationEngine.processRequests env.wallNow
                env.isMorningRushWall sg).completedRequests +
              (SimulationEngine.updateElevators
                (SimulationEngine.processRequests env.wallNow env.isMorningRushWall
                  sg).currentTime
                (SimulationEngine.processRequests env.wallNow env.isMorningRushWall
                  sg).elevators
                (SimulationEngine.processRequests env.wallNow env.isMorningRushWall
                  sg).pendingRequests).2.2.1
            completedRequestsWithTimes := (SimulationEngine.processRequests env.wallNow
                env.isMorningRushWall sg).completedRequestsWithTimes ++
              (SimulationEngine.updateElevators
                (SimulationEngine.processRequests env.wallNow env.isMorningRushWall
                  sg).currentTime
                (SimulationEngine.processRequests env.wallNow env.isMorningRushWall
                  sg).elevators
                (SimulationEngine.processRequests env.wallNow env.isMorningRushWall
                  sg).pendingRequests).2.2.2 }
      rw [u1, u2]
      dsimp only
      rw [u3]
      dsimp only at g1 g2 ⊢
      omega

theorem addManualElevatorRequest_conserv {wallNow : ℝ} {id : String}
    {eid f t : ℤ} {s : SimulationEngine} :
    (SimulationEngine.addManualElevatorRequest wallNow id eid f t s).totalRequests =
      s.totalRequests + 1 ∧
    (SimulationEngine.addManualElevatorRequest wallNow id eid f t s).completedRequests =
      s.completedRequests ∧
    ((SimulationEngine.addManualElevatorRequest wallNow id eid f t s).pendingRequests).length =
      s.pendingRequests.length + 1 := by
  unfold SimulationEngine.addManualElevatorRequest
  dsimp only
  repeat' first
  | exact ⟨rfl, rfl, by simp⟩
  | split

/-- C3: in every reachable engine state, the running counter
`totalRequests` equals `completedRequests` plus the number of requests in
the pending pool — a request leaves the pool only by being delivered (the
one completion path increments the counter and splices exactly one pool
entry), so no request is silently dropped. -/
theorem conservation_invariant (s : SimulationEngine) (hs : Reachable s) :
    s.totalRequests = s.completedRequests + s.pendingRequests.length := by
  induction hs with
  | init F N h0 => rfl
  | step env hr hst ih => exact step_conserv hst ih
  | start hr ih => exact ih
  | stopEngine hr ih => exact ih
  | reset hr ih => rfl
  | setSpeed speed hr ih => exact ih
  | setRequestFrequency f hr ih => exact ih
  | startMorningRush hr ih => exact ih
  | startEveningRush hr ih => exact ih
  | endRushHour hr ih => exact ih
  | addManualRequest id f t hr ih =>
    unfold SimulationEngine.addManualRequest
    dsimp only
    simp only [List.length_append, List.length_cons, List.length_nil]
    omega
  | addLongWaitingRequest id f t hr ih =>
    unfold SimulationEngine.addLongWaitingRequest
    dsimp only
    simp only [List.length_append, List.length_cons, List.length_nil]
    omega
  | addManualElevatorRequest w id eid f t hr ih =>
    obtain ⟨h1, h2, h3⟩ := @addManualElevatorRequest_conserv w id eid f t _
    rw [h1, h2, h3]
    omega

/-- C3 witness: conservation after one manual injection into a fresh
engine. -/
theorem conservation_invariant_witness :
    (SimulationEngine.addManualRequest "m" 2 9
        (SimulationEngine.mkEngine 20 4 0)).totalRequests =
      (SimulationEngine.addManualRequest "m" 2 9
        (SimulationEngine.mkEngine 20 4 0)).completedRequests +
      ((SimulationEngine.addManualRequest "m" 2 9
        (SimulationEngine.mkEngine 20 4 0)).pendingRequests).length :=
  conservation_invariant _
    (Reachable.addManualRequest "m" 2 9 (Reachable.init 20 4 0))
